import Mathlib

/-! Guest address-space manager of noah (src/mm/mmap.c, src/list.h)

A shallow embedding of `init_mmap`, `alloc_region`, `do_munmap` and `do_mmap`,
and of `list_cut_position` with the functions of list.h it calls.

Conventions of the embedding.

* `gaddr_t`, `size_t` and host pointers are natural numbers.  The arithmetic
  of `alloc_region` on the cursor is taken modulo `2^64`, as in the source; the
  sums `gaddr + size` of a range and the rounding of a length in `do_mmap` and
  `do_munmap` are the sums of natural numbers, which covers the requests whose
  range ends in the 64-bit address space.
* `proc->mm` is passed explicitly.  The region directory is the list
  `mm_regions`, kept in list order; the red-black tree `mm_region_tree` indexes
  the same set of regions and is not represented separately.
* A pointer into the region list is a position in the list; the loop of
  `do_munmap` is run on the part of the list that starts at `overlapping`
  (nodes before it are never touched by the loop).
* Calls to the host allocator and to the guest page-table installer are
  recorded as a list of `Event`s; the outcome of `platform_map_mem` is an
  argument of `do_mmap`.
* `assert`, `exit` and `panic` end the run: they are the `Fatal` outcomes.
* For list.h the heap is the pair of the `next` and `prev` fields of the
  `struct list_head` at each address; a field assignment updates one of them at
  one address.
-/

namespace Noah

/-! ## Constants and helpers declared outside the available sources -/

/-- Modelled from the spec: the page size `PAGE_SIZE(PAGE_4KB)`; the macro is
declared in a header that is not available. -/
def PAGE_SIZE_4KB : Nat := 4096

/-- Modelled from the spec: `roundup(x, y)`, "length is rounded up to page
size"; the macro comes from a header that is not available.  The usual
definition `((x + y - 1) / y) * y`. -/
def roundup (x y : Nat) : Nat := ((x + y - 1) / y) * y

/-- Modelled from the spec: `is_page_aligned(addr, PAGE_4KB)`, declared in a
header that is not available: the address is a multiple of the page size. -/
def is_page_aligned (a : Nat) : Bool := a % PAGE_SIZE_4KB == 0

/-- Modelled from the spec: Linux errno `EINVAL` (header not available). -/
def LINUX_EINVAL : Int := 22

/-- Modelled from the spec: Linux errno `ENOMEM` (header not available). -/
def LINUX_ENOMEM : Int := 12

/-- Modelled from the spec: `LINUX_MAP_SHARED` of linux/mman.h (not
available), Linux ABI value. -/
def LINUX_MAP_SHARED : Nat := 0x01

/-- Modelled from the spec: `LINUX_MAP_PRIVATE` of linux/mman.h (not
available), Linux ABI value. -/
def LINUX_MAP_PRIVATE : Nat := 0x02

/-- Modelled from the spec: `LINUX_MAP_FIXED` of linux/mman.h (not
available), Linux ABI value. -/
def LINUX_MAP_FIXED : Nat := 0x10

/-- Modelled from the spec: `LINUX_MAP_ANON` of linux/mman.h (not
available), Linux ABI value. -/
def LINUX_MAP_ANON : Nat := 0x20

/-- Modelled from the spec: `LINUX_MAP_DENYWRITE` of linux/mman.h (not
available), Linux ABI value. -/
def LINUX_MAP_DENYWRITE : Nat := 0x0800

/-- Modelled from the spec: `LINUX_MAP_EXECUTABLE` of linux/mman.h (not
available), Linux ABI value. -/
def LINUX_MAP_EXECUTABLE : Nat := 0x1000

/-- Modelled from the spec: `LINUX_MAP_NORESERVE` of linux/mman.h (not
available), Linux ABI value. -/
def LINUX_MAP_NORESERVE : Nat := 0x4000

/-- Modelled from the spec: `LINUX_MAP_STACK` of linux/mman.h (not
available), Linux ABI value. -/
def LINUX_MAP_STACK : Nat := 0x20000

/-- The C expression `f & ~x` on flag words: the bits of `x` cleared in `f`. -/
def and_not (f x : Nat) : Nat := f ^^^ (f &&& x)

/-! ## Data model -/

/-- Modelled from the spec: `struct mm_region` (declared in mm.h, not
available).  The fields are the arguments of `record_region` and the members
read by `do_munmap`; the list and tree links are the position in the
directory. -/
structure mm_region where
  haddr : Nat
  handle : Nat
  gaddr : Nat
  size : Nat
  prot : Int
  mm_flags : Nat
  mm_fd : Int
  pgoff : Int
deriving DecidableEq, Repr

/-- Modelled from the spec: `struct mm` (declared in mm.h, not available): the
ordered region list and the allocation cursor. -/
structure mm where
  mm_regions : List mm_region
  current_mmap_top : Nat
deriving DecidableEq, Repr

/-- Calls made to the two external interfaces (host allocator, guest
page-table installer). -/
inductive Event where
  | platform_map_mem (len : Nat) (n_prot : Int) (l_flags : Nat)
  | vm_munmap (gaddr size : Nat)
  | platform_unmap_mem (haddr handle size : Nat)
  | vm_mmap (addr len : Nat) (l_prot : Int) (ptr : Nat)
deriving DecidableEq, Repr

/-- Ways in which a call ends the process instead of returning. -/
inductive Fatal where
  | assert_failed
  | exit_unsupported_flags
  | panic_mmap_failed
  | panic_overlapping
  | loop_bound
deriving DecidableEq, Repr

/-- The key `struct mm_region key = {.gaddr = gaddr, .size = size}`. -/
def region_key (gaddr size : Nat) : mm_region :=
  { haddr := 0, handle := 0, gaddr := gaddr, size := size, prot := 0,
    mm_flags := 0, mm_fd := 0, pgoff := 0 }

/-- Modelled from the spec: `region_compare` (defined in mm.c, not available),
the comparison that orders the directory, an "interval-ordered balanced tree
keyed by guest_base": `0` when the two guest ranges overlap, that is when some
address lies in both `[gaddr, gaddr+size)` ranges; otherwise `-1` or `1` by the
order of the bases. -/
def region_compare (r1 r2 : mm_region) : Int :=
  if r1.gaddr < r2.gaddr + r2.size ∧ r2.gaddr < r1.gaddr + r1.size ∧
      0 < r1.size ∧ 0 < r2.size then 0
  else if r1.gaddr < r2.gaddr then -1
  else 1

/-- Position of the first region of a list that overlaps `key`. -/
def first_overlap (key : mm_region) : List mm_region → Option Nat
  | [] => none
  | r :: rs =>
    if region_compare key r = 0 then some 0
    else (first_overlap key rs).map (fun i => i + 1)

/-- Modelled from the spec: `find_region_range` (defined in mm.c, not
available): "find-first-overlap-iterating-toward-end(base, length)", the first
region in address order that overlaps `[gaddr, gaddr+size)`, or none (`NULL`).
The result is the position of the region in the list. -/
def find_region_range (gaddr size : Nat) (m : mm) : Option Nat :=
  first_overlap (region_key gaddr size) m.mm_regions

/-- Modelled from the spec: `split_region` (defined in mm.c, not available),
§4.3 Split.  The left half keeps the base with length `gaddr - base`; the right
half starts at `gaddr`, has the rest of the length, and its host address (and
file offset, if file-backed) is advanced by the same byte offset.  No host
call is made; both halves carry the handle of the reservation, of which the
host releases sub-ranges (§6).  The spec requires `gaddr` strictly inside the
region. -/
def split_region (r : mm_region) (gaddr : Nat) : mm_region × mm_region :=
  let offset := gaddr - r.gaddr
  ({ r with size := offset },
   { r with
     haddr := r.haddr + offset
     gaddr := gaddr
     size := r.size - offset
     pgoff := if r.mm_flags &&& LINUX_MAP_ANON = 0 then r.pgoff + offset else r.pgoff })

/-- Position at which a new region is linked into the ordered list: after the
regions that compare below it. -/
def insert_ordered (new : mm_region) : List mm_region → List mm_region
  | [] => [new]
  | r :: rs =>
    if region_compare new r = 1 then r :: insert_ordered new rs
    else new :: r :: rs

/-- Modelled from the spec: `record_region` (defined in mm.c, not available):
"records the new Region in the Directory", keeping the ordered sequence in
order; bookkeeping that would produce overlapping regions is fatal
(InvariantViolation), which is the result `none`. -/
def record_region (m : mm) (handle haddr gaddr size : Nat) (prot : Int)
    (mm_flags : Nat) (mm_fd pgoff : Int) : Option mm :=
  let new : mm_region :=
    { haddr := haddr, handle := handle, gaddr := gaddr, size := size, prot := prot,
      mm_flags := mm_flags, mm_fd := mm_fd, pgoff := pgoff }
  if m.mm_regions.any (fun r => region_compare new r == 0) then none
  else some { m with mm_regions := insert_ordered new m.mm_regions }

/-! ## The functions of mmap.c -/

/-- The function `init_mmap`. -/
def init_mmap (m : mm) : mm :=
  { m with current_mmap_top := 0x00000000c0000000 }

/-- The function `alloc_region`: the returned address and the new state.  The
cursor (`gaddr_t`) and `len` (`size_t`) are unsigned 64-bit values: the
rounding, the addition `+=` and the subtraction are taken modulo `2^64`. -/
def alloc_region (m : mm) (len : Nat) : Nat × mm :=
  let len := roundup len PAGE_SIZE_4KB % 2 ^ 64
  let m1 := { m with current_mmap_top := (m.current_mmap_top + len) % 2 ^ 64 }
  ((m1.current_mmap_top + 2 ^ 64 - len) % 2 ^ 64, m1)

/-- The `while` loop of `do_munmap`, entered with `overlapping = o` whose
successors in the list are `tail`.  The result is the list that replaces
`o :: tail` and the external calls made.  Each round uses one unit of the
bound; `none` means the bound was too small. -/
def munmap_loop (gaddr size : Nat) : Nat → mm_region → List mm_region →
    Option (List mm_region × List Event)
  | 0, _, _ => none
  | fuel + 1, o, tail =>
    if region_compare (region_key gaddr size) o = 0 then
      -- if (overlapping->gaddr < gaddr) { split_region; overlapping = next }
      let kept := if o.gaddr < gaddr then [(split_region o gaddr).1] else []
      let o1 := if o.gaddr < gaddr then (split_region o gaddr).2 else o
      -- if (overlapping->gaddr + overlapping->size > gaddr + size) split_region
      let o2 := if o1.gaddr + o1.size > gaddr + size then
        (split_region o1 (gaddr + size)).1 else o1
      let next := if o1.gaddr + o1.size > gaddr + size then
        (split_region o1 (gaddr + size)).2 :: tail else tail
      let calls := [Event.vm_munmap o2.gaddr o2.size,
                    Event.platform_unmap_mem o2.haddr o2.handle o2.size]
      match next with
      | [] => some (kept, calls)
      | n :: rest =>
        (munmap_loop gaddr size fuel n rest).map
          (fun res => (kept ++ res.1, calls ++ res.2))
    else some (o :: tail, [])

/-- The function `do_munmap`: return value, new state and external calls.
`none` only if the loop bound were exceeded (it never is, see
`do_munmap_returns`). -/
def do_munmap (m : mm) (gaddr size : Nat) : Option (Int × mm × List Event) :=
  if !is_page_aligned gaddr then some (-LINUX_EINVAL, m, [])
  else
    let size := roundup size PAGE_SIZE_4KB
    match find_region_range gaddr size m with
    | none => some (-LINUX_ENOMEM, m, [])
    | some i =>
      match m.mm_regions.drop i with
      | [] => some (0, m, [])
      | o :: tail =>
        (munmap_loop gaddr size (tail.length + 2) o tail).map
          (fun res => (0, { m with mm_regions := m.mm_regions.take i ++ res.1 }, res.2))

/-- The function `do_mmap`.  The argument `host` is what `platform_map_mem`
answers for this call: `none` for `err < 0`, otherwise the pointer and the
handle it stores.  A call that returns gives the returned value, the state and
the external calls made; a call that ends the process gives the way it ends,
with the state and the external calls made up to that point. -/
def do_mmap (m : mm) (host : Option (Nat × Nat)) (addr len : Nat) (n_prot l_prot : Int)
    (l_flags : Nat) (fd offset : Int) :
    Except (Fatal × mm × List Event) (Int × mm × List Event) :=
  if addr &&& 0xfff ≠ 0 then .error (.assert_failed, m, [])
  else if l_flags &&& LINUX_MAP_PRIVATE = 0 ∧ l_flags &&& LINUX_MAP_ANON = 0 then
    .ok (-LINUX_EINVAL, m, [])
  else
    let l_flags := and_not l_flags LINUX_MAP_DENYWRITE
    let l_flags := and_not l_flags LINUX_MAP_EXECUTABLE
    let l_flags := and_not l_flags LINUX_MAP_NORESERVE
    let l_flags := and_not l_flags LINUX_MAP_STACK
    let len := roundup len PAGE_SIZE_4KB
    if and_not l_flags
        (LINUX_MAP_SHARED ||| LINUX_MAP_PRIVATE ||| LINUX_MAP_FIXED ||| LINUX_MAP_ANON) ≠ 0 then
      .error (.exit_unsupported_flags, m, [])
    else
      let fd := if l_flags &&& LINUX_MAP_ANON ≠ 0 then -1 else fd
      let offset := if l_flags &&& LINUX_MAP_ANON ≠ 0 then 0 else offset
      let am := if l_flags &&& LINUX_MAP_FIXED = 0 then alloc_region m len else (addr, m)
      let addr := am.1
      let m1 := am.2
      if l_flags &&& LINUX_MAP_ANON = 0 then .ok (-LINUX_EINVAL, m1, [])
      else
        match host with
        | none => .error (.panic_mmap_failed, m1, [Event.platform_map_mem len n_prot l_flags])
        | some (ptr, handle) =>
          match do_munmap m1 addr len with
          | none => .error (.loop_bound, m1, [Event.platform_map_mem len n_prot l_flags])
          | some (_, m2, calls) =>
            match record_region m2 handle ptr addr len l_prot l_flags fd offset with
            | none =>
              .error (.panic_overlapping, m2, Event.platform_map_mem len n_prot l_flags :: calls)
            | some m3 =>
              .ok ((addr : Int), m3,
                Event.platform_map_mem len n_prot l_flags :: calls ++
                  [Event.vm_mmap addr len l_prot ptr])

/-! ## Sequences of calls -/

/-- One call of the public interface, with the answer of the host allocator
for a `do_mmap`. -/
inductive Call where
  | mmap (host : Option (Nat × Nat)) (addr len : Nat) (n_prot l_prot : Int)
      (l_flags : Nat) (fd offset : Int)
  | munmap (gaddr size : Nat)
deriving DecidableEq, Repr

/-- State after one call, `none` when the call does not return. -/
def step (m : mm) : Call → Option mm
  | .mmap host addr len n_prot l_prot l_flags fd offset =>
    match do_mmap m host addr len n_prot l_prot l_flags fd offset with
    | .ok res => some res.2.1
    | .error _ => none
  | .munmap gaddr size => (do_munmap m gaddr size).map (fun res => res.2.1)

/-- State after a sequence of calls that all return. -/
def run (m : mm) : List Call → Option mm
  | [] => some m
  | c :: cs => (step m c).bind (fun m1 => run m1 cs)

/-! ## Specification vocabulary -/

/-- Address `x` lies in the guest range of `r`. -/
def covers (r : mm_region) (x : Nat) : Prop := r.gaddr ≤ x ∧ x < r.gaddr + r.size

instance (r : mm_region) (x : Nat) : Decidable (covers r x) := by
  unfold covers; infer_instance

/-- The guest ranges of two regions have no address in common. -/
def ranges_disjoint (a b : mm_region) : Prop := ∀ x, ¬ (covers a x ∧ covers b x)

/-- No-overlap: any two regions at different places of the directory have
disjoint guest ranges. -/
def no_overlap (rs : List mm_region) : Prop := rs.Pairwise ranges_disjoint

/-- Base and length of every region are multiples of 4096. -/
def regions_aligned (rs : List mm_region) : Prop :=
  ∀ r ∈ rs, r.gaddr % 4096 = 0 ∧ r.size % 4096 = 0

/-- Regions listed in address order, each ending no later than the next begins. -/
def regions_ordered (rs : List mm_region) : Prop :=
  rs.Pairwise (fun a b => a.gaddr + a.size ≤ b.gaddr)

/-- Every region has a positive length (data model, §3). -/
def regions_positive (rs : List mm_region) : Prop := ∀ r ∈ rs, 0 < r.size

/-- Well-formed state: regions disjoint and in address order, page-aligned, of
positive length. -/
def well_formed (m : mm) : Prop :=
  regions_ordered m.mm_regions ∧ regions_aligned m.mm_regions ∧
    regions_positive m.mm_regions

/-- The part of `r` below address `g`. -/
def left_remnant (g : Nat) (r : mm_region) : mm_region :=
  { r with size := g - r.gaddr }

/-- The part of `r` from address `e` on, with the host address (and the file
offset of a file-backed region) moved by the same byte offset. -/
def right_remnant (e : Nat) (r : mm_region) : mm_region :=
  { r with
    haddr := r.haddr + (e - r.gaddr)
    gaddr := e
    size := r.gaddr + r.size - e
    pgoff := if r.mm_flags &&& LINUX_MAP_ANON = 0 then r.pgoff + ((e - r.gaddr : Nat) : Int)
             else r.pgoff }

/-- What is left of region `r` once `[g, g+s)` is cleared: `r` itself when it
does not overlap the range, otherwise its parts outside the range. -/
def remnants (g s : Nat) (r : mm_region) : List mm_region :=
  if region_compare (region_key g s) r = 0 then
    (if r.gaddr < g then [left_remnant g r] else []) ++
      (if g + s < r.gaddr + r.size then [right_remnant (g + s) r] else [])
  else [r]

/-- Base of the part of `r` inside `[g, g+s)` (for a region that overlaps it). -/
def inside_base (g : Nat) (r : mm_region) : Nat := if r.gaddr < g then g else r.gaddr

/-- End of the part of `r` inside `[g, g+s)` (for a region that overlaps it). -/
def inside_end (g s : Nat) (r : mm_region) : Nat :=
  if g + s < r.gaddr + r.size then g + s else r.gaddr + r.size

/-- The release calls for the part of `r` inside `[g, g+s)`. -/
def released (g s : Nat) (r : mm_region) : List Event :=
  if region_compare (region_key g s) r = 0 then
    [Event.vm_munmap (inside_base g r) (inside_end g s r - inside_base g r),
     Event.platform_unmap_mem (r.haddr + (inside_base g r - r.gaddr)) r.handle
       (inside_end g s r - inside_base g r)]
  else []

/-- The loop of `do_munmap` as a recursion on the list: regions are trimmed
one after the other until one does not overlap the range, or one reaches
beyond the end of the range, or the list ends. -/
def sweep (g s : Nat) : List mm_region → List mm_region × List Event
  | [] => ([], [])
  | o :: tail =>
    if region_compare (region_key g s) o = 0 then
      if g + s < o.gaddr + o.size then (remnants g s o ++ tail, released g s o)
      else (remnants g s o ++ (sweep g s tail).1, released g s o ++ (sweep g s tail).2)
    else (o :: tail, [])

/-- The region list after `do_munmap` has run on `[g, g+s)`. -/
def clear_range (g s : Nat) : List mm_region → List mm_region × List Event
  | [] => ([], [])
  | r :: rs =>
    if region_compare (region_key g s) r = 0 then sweep g s (r :: rs)
    else (r :: (clear_range g s rs).1, (clear_range g s rs).2)

/-- Host address, protection and mapping flags that the directory gives for
guest address `x`, if a region covers it. -/
def translate (rs : List mm_region) (x : Nat) : Option (Nat × Int × Nat) :=
  (rs.find? (fun r => decide (covers r x))).map
    (fun r => (r.haddr + (x - r.gaddr), r.prot, r.mm_flags))

/-! ## Auxiliary definitions used by the proofs and the worked examples -/

/-- The region `overlapping` after the first `if` of the loop body. -/
def after_left_split (g : Nat) (o : mm_region) : mm_region :=
  if o.gaddr < g then (split_region o g).2 else o

/-- The region removed by one round of the loop. -/
def loop_removed (g s : Nat) (o : mm_region) : mm_region :=
  if (after_left_split g o).gaddr + (after_left_split g o).size > g + s then
    (split_region (after_left_split g o) (g + s)).1
  else after_left_split g o

/-- The external calls of one round of the loop. -/
def loop_calls (g s : Nat) (o : mm_region) : List Event :=
  [Event.vm_munmap (loop_removed g s o).gaddr (loop_removed g s o).size,
   Event.platform_unmap_mem (loop_removed g s o).haddr (loop_removed g s o).handle
     (loop_removed g s o).size]

/-- The left half that one round of the loop leaves in the list. -/
def loop_kept (g : Nat) (o : mm_region) : List mm_region :=
  if o.gaddr < g then [(split_region o g).1] else []

/-- The second list is obtained from the first by replacing some regions by
their remnants, in place. -/
inductive Trimmed (g s : Nat) : List mm_region → List mm_region → Prop where
  | nil : Trimmed g s [] []
  | keep (r : mm_region) {rs rs1 : List mm_region} :
      Trimmed g s rs rs1 → Trimmed g s (r :: rs) (r :: rs1)
  | trim (r : mm_region) {rs rs1 : List mm_region} :
      Trimmed g s rs rs1 → Trimmed g s (r :: rs) (remnants g s r ++ rs1)

/-- The invariant kept by every call that returns: regions pairwise disjoint,
regions page-aligned, cursor page-aligned. -/
def state_inv (m : mm) : Prop :=
  no_overlap m.mm_regions ∧ regions_aligned m.mm_regions ∧ m.current_mmap_top % 4096 = 0

/-- The advisory bits that `do_mmap` clears. -/
def ADVISORY_MASK : Nat :=
  LINUX_MAP_DENYWRITE ||| LINUX_MAP_EXECUTABLE ||| LINUX_MAP_NORESERVE ||| LINUX_MAP_STACK

/-- The bits that `do_mmap` recognizes. -/
def RECOGNIZED_MASK : Nat :=
  LINUX_MAP_SHARED ||| LINUX_MAP_PRIVATE ||| LINUX_MAP_FIXED ||| LINUX_MAP_ANON

/-- The flag word after the four `l_flags &= ~...` statements of `do_mmap`. -/
def cleared_flags (f : Nat) : Nat :=
  and_not (and_not (and_not (and_not f LINUX_MAP_DENYWRITE) LINUX_MAP_EXECUTABLE)
    LINUX_MAP_NORESERVE) LINUX_MAP_STACK

/-- A run of four calls: two fixed mappings, one placed by the allocator with
an unaligned length, one unmap. -/
def example_calls : List Call :=
  [Call.mmap (some (0x700000, 1)) 0x1000 0x3000 3 3 0x32 (-1) 0,
   Call.mmap (some (0x900000, 2)) 0x2000 0x1000 1 1 0x32 (-1) 0,
   Call.mmap (some (0xa00000, 3)) 0 5 3 3 0x22 (-1) 0,
   Call.munmap 0x1000 0x1000]

/-- The state reached by `example_calls` from the initial state. -/
def example_state : mm :=
  { mm_regions :=
      [mm_region.mk 0x900000 2 0x2000 0x1000 1 0x32 (-1) 0,
       mm_region.mk 0x702000 1 0x3000 0x1000 3 0x32 (-1) 0,
       mm_region.mk 0xa00000 3 0xc0000000 0x1000 3 0x22 (-1) 0],
    current_mmap_top := 0xc0001000 }

/-- A well-formed state with two regions. -/
def two_regions : mm :=
  { mm_regions :=
      [mm_region.mk 0x700000 1 0x1000 0x3000 3 0x32 (-1) 0,
       mm_region.mk 0x900000 2 0x5000 0x2000 1 0x32 (-1) 0],
    current_mmap_top := 0xc0000000 }

/-- Three fixed anonymous mappings, the second of length `0`. -/
def zero_gap_calls : List Call :=
  [Call.mmap (some (0x700000, 1)) 0x1000 0x1000 3 3 0x32 (-1) 0,
   Call.mmap (some (0x800000, 2)) 0x2000 0 3 3 0x32 (-1) 0,
   Call.mmap (some (0x900000, 3)) 0x3000 0x1000 3 3 0x32 (-1) 0]

/-- The state reached by `zero_gap_calls` from the initial state: three regions
that are disjoint, page-aligned and in address order, the middle one of length
`0`. -/
def zero_gap : mm :=
  { mm_regions :=
      [mm_region.mk 0x700000 1 0x1000 0x1000 3 0x32 (-1) 0,
       mm_region.mk 0x800000 2 0x2000 0 3 0x32 (-1) 0,
       mm_region.mk 0x900000 3 0x3000 0x1000 3 0x32 (-1) 0],
    current_mmap_top := 0xc0000000 }

/-- The state `two_regions` after `do_munmap 0x2000 0x4000`. -/
def two_regions_cleared : mm :=
  { mm_regions :=
      [mm_region.mk 0x700000 1 0x1000 0x1000 3 0x32 (-1) 0,
       mm_region.mk 0x901000 2 0x6000 0x1000 1 0x32 (-1) 0],
    current_mmap_top := 0xc0000000 }

/-- The initial state: empty directory, cursor set by `init_mmap`. -/
def initial_state : mm := init_mmap { mm_regions := [], current_mmap_top := 0 }

/-- The request is placed by the allocator on anonymous memory: `FIXED` is not
set and `ANON` is set. -/
def is_nonfixed_anon (l_flags : Nat) : Bool :=
  (l_flags &&& LINUX_MAP_FIXED == 0) && (l_flags &&& LINUX_MAP_ANON != 0)

/-- The returned address and the rounded length of every non-fixed anonymous
`do_mmap` call of a sequence of calls that all return, in call order; the
other calls of the sequence are run and left out of the list. -/
def returned_ranges : mm → List Call → Option (List (Int × Nat))
  | _, [] => some []
  | m, Call.mmap host addr len n_prot l_prot l_flags fd offset :: cs =>
    match do_mmap m host addr len n_prot l_prot l_flags fd offset with
    | .ok res =>
      (returned_ranges res.2.1 cs).map (fun l =>
        if is_nonfixed_anon l_flags then (res.1, roundup len PAGE_SIZE_4KB) :: l else l)
    | .error _ => none
  | m, Call.munmap gaddr size :: cs =>
    (do_munmap m gaddr size).bind (fun res => returned_ranges res.2.1 cs)

/-- No call of the run takes the cursor round `2^64`: at every `do_mmap`
request that reaches `alloc_region` (`FIXED` not set, `PRIVATE` or `ANON` set),
the cursor plus the rounded length is below `2^64`. -/
def cursor_in_range : mm → List Call → Bool
  | _, [] => true
  | m, Call.mmap host addr len n_prot l_prot l_flags fd offset :: cs =>
    (decide (l_flags &&& LINUX_MAP_FIXED ≠ 0) ||
      decide (l_flags &&& LINUX_MAP_PRIVATE = 0 ∧ l_flags &&& LINUX_MAP_ANON = 0) ||
      decide (m.current_mmap_top + roundup len PAGE_SIZE_4KB < 2 ^ 64)) &&
    (match do_mmap m host addr len n_prot l_prot l_flags fd offset with
     | .ok res => cursor_in_range res.2.1 cs
     | .error _ => true)
  | m, Call.munmap gaddr size :: cs =>
    match do_munmap m gaddr size with
    | some res => cursor_in_range res.2.1 cs
    | none => true

/-- A non-fixed anonymous mapping, a refused private file mapping of length
`0xffffffffffffe000` that takes the cursor round `2^64`, and a second non-fixed
anonymous mapping. -/
def wrapping_calls : List Call :=
  [Call.mmap (some (0xb00000, 7)) 0 0x1000 3 3 0x22 (-1) 0,
   Call.mmap none 0 0xffffffffffffe000 3 3 0x02 4 0,
   Call.mmap (some (0xd00000, 8)) 0 0x1000 3 3 0x22 (-1) 0]

/-- Two non-fixed anonymous private mappings of length `0`. -/
def zero_length_calls : List Call :=
  [Call.mmap (some (0xb00000, 7)) 0 0 3 3 0x22 (-1) 0,
   Call.mmap (some (0xd00000, 8)) 0 0 3 3 0x22 (-1) 0]

/-- A run with three non-fixed anonymous mappings, a fixed one and an unmap in
between. -/
def mixed_calls : List Call :=
  [Call.mmap (some (0xb00000, 7)) 0 5 3 3 0x22 (-1) 0,
   Call.mmap (some (0x900000, 2)) 0x2000 0x1000 1 1 0x32 (-1) 0,
   Call.mmap (some (0xd00000, 8)) 0 0x2000 3 3 0x22 (-1) 0,
   Call.munmap 0xc0000000 0x1000,
   Call.mmap (some (0xe00000, 9)) 0 0x1000 3 3 0x22 (-1) 0]

/-- The guest ranges `(base, length)` of the `vm_munmap` calls of a list of
external calls, in call order. -/
def vm_ranges : List Event → List (Nat × Nat)
  | [] => []
  | Event.vm_munmap a n :: es => (a, n) :: vm_ranges es
  | Event.platform_map_mem _ _ _ :: es => vm_ranges es
  | Event.platform_unmap_mem _ _ _ :: es => vm_ranges es
  | Event.vm_mmap _ _ _ _ :: es => vm_ranges es

/-! ## The intrusive list of list.h -/

/-- The `next` and `prev` members of the `struct list_head` at each address. -/
structure list_heap where
  next : Nat → Nat
  prev : Nat → Nat

/-- The assignment `a->next = v`. -/
def set_next (h : list_heap) (a v : Nat) : list_heap :=
  { h with next := fun x => if x = a then v else h.next x }

/-- The assignment `a->prev = v`. -/
def set_prev (h : list_heap) (a v : Nat) : list_heap :=
  { h with prev := fun x => if x = a then v else h.prev x }

/-- The function `INIT_LIST_HEAD`: `list->next = list->prev = list`. -/
def INIT_LIST_HEAD (h : list_heap) (list : Nat) : list_heap :=
  set_next (set_prev h list list) list list

/-- The function `list_empty`. -/
def list_empty (h : list_heap) (head : Nat) : Bool := h.next head == head

/-- The function `list_is_singular`. -/
def list_is_singular (h : list_heap) (head : Nat) : Bool :=
  !list_empty h head && (h.next head == h.prev head)

/-- The function `__list_cut_position`. -/
def __list_cut_position (h : list_heap) (list head entry : Nat) : list_heap :=
  let new_first := h.next entry
  let h1 := set_next h list (h.next head)
  let h2 := set_prev h1 (h1.next list) list
  let h3 := set_prev h2 list entry
  let h4 := set_next h3 entry list
  let h5 := set_next h4 head new_first
  set_prev h5 new_first head

/-- The function `list_cut_position`. -/
def list_cut_position (h : list_heap) (list head entry : Nat) : list_heap :=
  if list_empty h head then h
  else if list_is_singular h head && (h.next head != entry && head != entry) then h
  else if entry = head then INIT_LIST_HEAD h list
  else __list_cut_position h list head entry

/-- The links from node `a` through the nodes `l` to node `b`: each `next`
leads to the following node and each `prev` back. -/
def seg (h : list_heap) : Nat → List Nat → Nat → Prop
  | a, [], b => h.next a = b ∧ h.prev b = a
  | a, e :: l, b => h.next a = e ∧ h.prev e = a ∧ seg h e l b

/-- The circular list with head `head` holds exactly the entries `es`, in this
order, at pairwise different addresses, with consistent `next`/`prev` links. -/
def is_list (h : list_heap) (head : Nat) (es : List Nat) : Prop :=
  (head :: es).Nodup ∧ seg h head es head

/-- A heap with the circular list `0 → 1 → 2 → 3 → 0`; every other node is
an empty list of its own. -/
def example_heap : list_heap :=
  { next := fun x => if x = 0 then 1 else if x = 1 then 2 else if x = 2 then 3
      else if x = 3 then 0 else x
    prev := fun x => if x = 0 then 3 else if x = 1 then 0 else if x = 2 then 1
      else if x = 3 then 2 else x }

/-! ## Basic facts -/

theorem roundup_dvd (x : Nat) : roundup x PAGE_SIZE_4KB % 4096 = 0 := by
  unfold roundup PAGE_SIZE_4KB
  exact Nat.mul_mod_left _ _

theorem roundup_of_aligned (x : Nat) (h : x % 4096 = 0) : roundup x PAGE_SIZE_4KB = x := by
  unfold roundup PAGE_SIZE_4KB
  omega

theorem region_compare_key_zero (g s : Nat) (r : mm_region) :
    region_compare (region_key g s) r = 0 ↔
      (g < r.gaddr + r.size ∧ r.gaddr < g + s ∧ 0 < s ∧ 0 < r.size) := by
  unfold region_compare region_key
  simp only
  split_ifs with h1 h2
  · simp only [true_iff]; exact h1
  · constructor
    · intro h; exact absurd h (by decide)
    · intro h; exact absurd h h1
  · constructor
    · intro h; exact absurd h (by decide)
    · intro h; exact absurd h h1

theorem region_compare_key_zero_iff_covers (g s : Nat) (r : mm_region) :
    region_compare (region_key g s) r = 0 ↔ ∃ x, covers r x ∧ g ≤ x ∧ x < g + s := by
  rw [region_compare_key_zero]
  unfold covers
  constructor
  · intro h
    exact ⟨max g r.gaddr, by omega⟩
  · rintro ⟨x, hx⟩
    omega

/-! ## The loop of `do_munmap` -/

theorem after_left_split_end (g s : Nat) (o : mm_region)
    (h : region_compare (region_key g s) o = 0) :
    (after_left_split g o).gaddr + (after_left_split g o).size = o.gaddr + o.size := by
  rw [region_compare_key_zero] at h
  by_cases hl : o.gaddr < g
  · simp only [after_left_split, hl, if_true, split_region]
    omega
  · simp only [after_left_split, hl, if_false]

theorem after_left_split_right (g s : Nat) (o : mm_region)
    (h : region_compare (region_key g s) o = 0) (hr : g + s < o.gaddr + o.size) :
    (split_region (after_left_split g o) (g + s)).2 = right_remnant (g + s) o := by
  rw [region_compare_key_zero] at h
  by_cases hl : o.gaddr < g
  · simp only [after_left_split, hl, if_true, split_region, right_remnant,
      mm_region.mk.injEq, true_and, and_true]
    refine ⟨by omega, by omega, ?_⟩
    by_cases hf : o.mm_flags &&& LINUX_MAP_ANON = 0
    · simp only [hf, if_true]
      omega
    · simp only [hf, if_false]
  · simp only [after_left_split, hl, if_false, split_region, right_remnant,
      mm_region.mk.injEq, true_and, and_true]
    omega

theorem munmap_loop_succ (g s fuel : Nat) (o : mm_region) (tail : List mm_region) :
    munmap_loop g s (fuel + 1) o tail =
      if region_compare (region_key g s) o = 0 then
        match (if (after_left_split g o).gaddr + (after_left_split g o).size > g + s then
            (split_region (after_left_split g o) (g + s)).2 :: tail else tail) with
        | [] => some (loop_kept g o, loop_calls g s o)
        | n :: rest =>
          (munmap_loop g s fuel n rest).map
            (fun res => (loop_kept g o ++ res.1, loop_calls g s o ++ res.2))
      else some (o :: tail, []) := rfl

theorem loop_kept_eq (g s : Nat) (o : mm_region)
    (h : region_compare (region_key g s) o = 0) :
    remnants g s o = loop_kept g o ++
      (if g + s < o.gaddr + o.size then [right_remnant (g + s) o] else []) := by
  unfold remnants loop_kept
  rw [if_pos h]
  rfl

theorem loop_calls_eq (g s : Nat) (o : mm_region)
    (h : region_compare (region_key g s) o = 0) :
    loop_calls g s o = released g s o := by
  unfold released loop_calls loop_removed
  rw [if_pos h, after_left_split_end g s o h]
  rw [region_compare_key_zero] at h
  by_cases hl : o.gaddr < g <;> by_cases hr : g + s < o.gaddr + o.size
  · simp only [after_left_split, inside_base, inside_end, hl, hr, if_true, if_false,
      split_region, gt_iff_lt, List.cons.injEq, Event.vm_munmap.injEq,
      Event.platform_unmap_mem.injEq, and_true, true_and]
  · simp only [after_left_split, inside_base, inside_end, hl, hr, if_true, if_false,
      split_region, gt_iff_lt, List.cons.injEq, Event.vm_munmap.injEq,
      Event.platform_unmap_mem.injEq, and_true, true_and]
    all_goals omega
  · simp only [after_left_split, inside_base, inside_end, hl, hr, if_true, if_false,
      split_region, gt_iff_lt, List.cons.injEq, Event.vm_munmap.injEq,
      Event.platform_unmap_mem.injEq, and_true, true_and]
    all_goals omega
  · simp only [after_left_split, inside_base, inside_end, hl, hr, if_true, if_false,
      split_region, gt_iff_lt, List.cons.injEq, Event.vm_munmap.injEq,
      Event.platform_unmap_mem.injEq, and_true, true_and]
    all_goals omega

theorem munmap_loop_eq_sweep (g s : Nat) :
    ∀ (fuel : Nat) (o : mm_region) (tail : List mm_region), tail.length + 2 ≤ fuel →
      munmap_loop g s fuel o tail = some (sweep g s (o :: tail)) := by
  intro fuel
  induction fuel with
  | zero => intro o tail hf; omega
  | succ n ih =>
    intro o tail hf
    rw [munmap_loop_succ]
    by_cases hc : region_compare (region_key g s) o = 0
    · rw [if_pos hc, after_left_split_end g s o hc, loop_calls_eq g s o hc]
      simp only [sweep, if_pos hc, gt_iff_lt]
      by_cases hr : g + s < o.gaddr + o.size
      · rw [if_pos hr, if_pos hr, after_left_split_right g s o hc hr, loop_kept_eq g s o hc,
          if_pos hr]
        obtain ⟨k, rfl⟩ : ∃ k, n = k + 1 := ⟨n - 1, by omega⟩
        have hne : ¬ region_compare (region_key g s) (right_remnant (g + s) o) = 0 := by
          rw [region_compare_key_zero]
          simp only [right_remnant]
          omega
        simp only [munmap_loop_succ, if_neg hne, Option.map_some', List.append_nil,
          List.append_assoc, List.singleton_append]
      · rw [if_neg hr, if_neg hr, loop_kept_eq g s o hc, if_neg hr, List.append_nil]
        cases tail with
        | nil => simp only [sweep, List.append_nil]
        | cons t rest =>
          simp only
          rw [ih t rest (by simp only [List.length_cons] at hf; omega)]
          simp only [Option.map_some']
    · simp only [hc, if_false, sweep]

/-! ## Closed form of `do_munmap` -/

theorem first_overlap_none (g s : Nat) :
    ∀ rs : List mm_region, first_overlap (region_key g s) rs = none →
      (∀ r ∈ rs, region_compare (region_key g s) r ≠ 0) ∧ clear_range g s rs = (rs, []) := by
  intro rs
  induction rs with
  | nil => intro _; exact ⟨by simp, rfl⟩
  | cons r rs ih =>
    intro h
    unfold first_overlap at h
    by_cases hc : region_compare (region_key g s) r = 0
    · rw [if_pos hc] at h; exact absurd h (by simp)
    · rw [if_neg hc] at h
      have h1 : first_overlap (region_key g s) rs = none := by
        cases hfo : first_overlap (region_key g s) rs with
        | none => rfl
        | some i => rw [hfo] at h; exact absurd h (by simp)
      obtain ⟨ha, hb⟩ := ih h1
      refine ⟨?_, ?_⟩
      · intro x hx
        rcases List.mem_cons.mp hx with rfl | hx
        · exact hc
        · exact ha x hx
      · simp only [clear_range, if_neg hc, hb]

theorem first_overlap_some (g s : Nat) :
    ∀ (rs : List mm_region) (i : Nat), first_overlap (region_key g s) rs = some i →
      ∃ o tail, rs.drop i = o :: tail ∧ region_compare (region_key g s) o = 0 ∧
        clear_range g s rs =
          (rs.take i ++ (sweep g s (o :: tail)).1, (sweep g s (o :: tail)).2) := by
  intro rs
  induction rs with
  | nil => intro i h; exact absurd h (by simp [first_overlap])
  | cons r rs ih =>
    intro i h
    unfold first_overlap at h
    by_cases hc : region_compare (region_key g s) r = 0
    · rw [if_pos hc] at h
      obtain rfl : 0 = i := Option.some.inj h
      refine ⟨r, rs, rfl, hc, ?_⟩
      simp only [clear_range, if_pos hc, List.take_zero, List.nil_append]
    · rw [if_neg hc] at h
      cases hfo : first_overlap (region_key g s) rs with
      | none => rw [hfo] at h; exact absurd h (by simp)
      | some j =>
        rw [hfo] at h
        obtain rfl : j + 1 = i := Option.some.inj h
        obtain ⟨o, tail, hd, ho, hcl⟩ := ih j hfo
        refine ⟨o, tail, by simpa using hd, ho, ?_⟩
        simp only [clear_range, if_neg hc, hcl, List.take_succ_cons, List.cons_append]

theorem is_page_aligned_iff (a : Nat) : is_page_aligned a = true ↔ a % 4096 = 0 := by
  unfold is_page_aligned PAGE_SIZE_4KB
  simp

/-- An unaligned address is refused and nothing changes. -/
theorem do_munmap_unaligned (m : mm) (g size : Nat) (h : g % 4096 ≠ 0) :
    do_munmap m g size = some (-LINUX_EINVAL, m, []) := by
  have : is_page_aligned g = false := by
    rw [← Bool.not_eq_true, is_page_aligned_iff]; exact h
  simp only [do_munmap, this, Bool.not_false, if_true]

/-- With an aligned address and no overlapping region the call returns
`-LINUX_ENOMEM` and nothing changes. -/
theorem do_munmap_no_overlap (m : mm) (g size : Nat) (h : g % 4096 = 0)
    (hn : ∀ r ∈ m.mm_regions,
      region_compare (region_key g (roundup size PAGE_SIZE_4KB)) r ≠ 0) :
    do_munmap m g size = some (-LINUX_ENOMEM, m, []) := by
  have ha : is_page_aligned g = true := (is_page_aligned_iff g).mpr h
  have hf : find_region_range g (roundup size PAGE_SIZE_4KB) m = none := by
    unfold find_region_range
    cases hfo : first_overlap (region_key g (roundup size PAGE_SIZE_4KB)) m.mm_regions with
    | none => rfl
    | some i =>
      obtain ⟨o, tail, hd, ho, _⟩ := first_overlap_some _ _ _ _ hfo
      have : o ∈ m.mm_regions := List.mem_of_mem_drop (by rw [hd]; exact List.mem_cons_self _ _)
      exact absurd ho (hn o this)
  simp only [do_munmap, ha, Bool.not_true, hf]
  rfl

/-- With an aligned address and some overlapping region the call returns `0`
and leaves the list computed by `clear_range`. -/
theorem do_munmap_overlap (m : mm) (g size : Nat) (h : g % 4096 = 0)
    (hn : ∃ r ∈ m.mm_regions,
      region_compare (region_key g (roundup size PAGE_SIZE_4KB)) r = 0) :
    do_munmap m g size = some (0,
      { m with mm_regions := (clear_range g (roundup size PAGE_SIZE_4KB) m.mm_regions).1 },
      (clear_range g (roundup size PAGE_SIZE_4KB) m.mm_regions).2) := by
  have ha : is_page_aligned g = true := (is_page_aligned_iff g).mpr h
  cases hfo : first_overlap (region_key g (roundup size PAGE_SIZE_4KB)) m.mm_regions with
  | none =>
    obtain ⟨r, hr, hc⟩ := hn
    exact absurd hc ((first_overlap_none _ _ _ hfo).1 r hr)
  | some i =>
    obtain ⟨o, tail, hd, ho, hcl⟩ := first_overlap_some _ _ _ _ hfo
    simp only [do_munmap, ha, Bool.not_true, find_region_range, hfo, hd]
    rw [munmap_loop_eq_sweep g _ _ o tail (by omega), hcl]
    rfl

/-- The call `do_munmap` always returns: the loop bound is never reached. -/
theorem do_munmap_returns (m : mm) (g size : Nat) :
    ∃ res, do_munmap m g size = some res := by
  by_cases h : g % 4096 = 0
  · by_cases hn : ∃ r ∈ m.mm_regions,
        region_compare (region_key g (roundup size PAGE_SIZE_4KB)) r = 0
    · exact ⟨_, do_munmap_overlap m g size h hn⟩
    · refine ⟨_, do_munmap_no_overlap m g size h ?_⟩
      intro r hr hc
      exact hn ⟨r, hr, hc⟩
  · exact ⟨_, do_munmap_unaligned m g size h⟩

/-! ## What is left of one region -/

theorem mem_remnants (g s : Nat) (r p : mm_region) :
    p ∈ remnants g s r ↔
      (region_compare (region_key g s) r ≠ 0 ∧ p = r) ∨
      (region_compare (region_key g s) r = 0 ∧
        ((r.gaddr < g ∧ p = left_remnant g r) ∨
         (g + s < r.gaddr + r.size ∧ p = right_remnant (g + s) r))) := by
  unfold remnants
  by_cases hc : region_compare (region_key g s) r = 0
  · rw [if_pos hc]
    by_cases hl : r.gaddr < g <;> by_cases hr : g + s < r.gaddr + r.size <;>
      simp [hc, hl, hr]
  · rw [if_neg hc]
    simp [hc]

theorem remnants_of_no_overlap (g s : Nat) (r : mm_region)
    (h : region_compare (region_key g s) r ≠ 0) : remnants g s r = [r] := by
  unfold remnants; rw [if_neg h]

theorem released_of_no_overlap (g s : Nat) (r : mm_region)
    (h : region_compare (region_key g s) r ≠ 0) : released g s r = [] := by
  unfold released; rw [if_neg h]

/-- A remnant covers only addresses of the original region that lie outside
the cleared range. -/
theorem remnants_covers (g s : Nat) (r p : mm_region) (x : Nat)
    (hp : p ∈ remnants g s r) (hx : covers p x) :
    covers r x ∧ (x < g ∨ g + s ≤ x) := by
  rw [mem_remnants] at hp
  rcases hp with ⟨hc, rfl⟩ | ⟨hc, ⟨hl, rfl⟩ | ⟨hr, rfl⟩⟩
  · refine ⟨hx, ?_⟩
    rw [Ne, region_compare_key_zero] at hc
    unfold covers at hx
    omega
  · rw [region_compare_key_zero] at hc
    simp only [covers, left_remnant] at hx ⊢
    omega
  · rw [region_compare_key_zero] at hc
    simp only [covers, right_remnant] at hx ⊢
    omega

/-- An address of the region outside the cleared range is covered by one of
the remnants. -/
theorem covers_remnants (g s : Nat) (r : mm_region) (x : Nat)
    (hx : covers r x) (hout : x < g ∨ g + s ≤ x) :
    ∃ p ∈ remnants g s r, covers p x := by
  by_cases hc : region_compare (region_key g s) r = 0
  · have hc2 := (region_compare_key_zero g s r).mp hc
    unfold covers at hx
    by_cases hlt : x < g
    · refine ⟨left_remnant g r, (mem_remnants g s r _).mpr (Or.inr ⟨hc, Or.inl ⟨by omega, rfl⟩⟩), ?_⟩
      simp only [covers, left_remnant]
      omega
    · refine ⟨right_remnant (g + s) r,
        (mem_remnants g s r _).mpr (Or.inr ⟨hc, Or.inr ⟨by omega, rfl⟩⟩), ?_⟩
      simp only [covers, right_remnant]
      omega
  · exact ⟨r, by rw [remnants_of_no_overlap g s r hc]; exact List.mem_singleton_self r, hx⟩

theorem remnants_aligned (g s : Nat) (r p : mm_region) (hg : g % 4096 = 0)
    (hs : s % 4096 = 0) (hr : r.gaddr % 4096 = 0 ∧ r.size % 4096 = 0)
    (hp : p ∈ remnants g s r) : p.gaddr % 4096 = 0 ∧ p.size % 4096 = 0 := by
  rw [mem_remnants] at hp
  rcases hp with ⟨_, rfl⟩ | ⟨hc, ⟨hl, rfl⟩ | ⟨hr2, rfl⟩⟩
  · exact hr
  · simp only [left_remnant]
    omega
  · simp only [right_remnant]
    omega

theorem remnants_disjoint (g s : Nat) (r : mm_region) :
    (remnants g s r).Pairwise ranges_disjoint := by
  unfold remnants
  by_cases hc : region_compare (region_key g s) r = 0
  · rw [if_pos hc]
    by_cases hl : r.gaddr < g <;> by_cases hr : g + s < r.gaddr + r.size
    · simp only [if_pos hl, if_pos hr, List.singleton_append, List.pairwise_cons,
        List.mem_singleton, forall_eq, List.not_mem_nil, false_implies, implies_true,
        List.Pairwise.nil, and_true]
      intro x
      simp only [covers, left_remnant, right_remnant]
      omega
    · simp [hl, hr]
    · simp [hl, hr]
    · simp [hl, hr]
  · rw [if_neg hc]
    simp

/-! ## What the sweep does to the list -/

theorem Trimmed.refl (g s : Nat) : ∀ rs : List mm_region, Trimmed g s rs rs
  | [] => Trimmed.nil
  | r :: rs => Trimmed.keep r (Trimmed.refl g s rs)

theorem sweep_trimmed (g s : Nat) : ∀ rs : List mm_region, Trimmed g s rs (sweep g s rs).1
  | [] => Trimmed.nil
  | o :: tail => by
    unfold sweep
    by_cases hc : region_compare (region_key g s) o = 0
    · rw [if_pos hc]
      by_cases hr : g + s < o.gaddr + o.size
      · rw [if_pos hr]
        exact Trimmed.trim o (Trimmed.refl g s tail)
      · rw [if_neg hr]
        exact Trimmed.trim o (sweep_trimmed g s tail)
    · rw [if_neg hc]
      exact Trimmed.refl g s _

theorem clear_range_trimmed (g s : Nat) :
    ∀ rs : List mm_region, Trimmed g s rs (clear_range g s rs).1
  | [] => Trimmed.nil
  | r :: rs => by
    unfold clear_range
    by_cases hc : region_compare (region_key g s) r = 0
    · rw [if_pos hc]
      exact sweep_trimmed g s _
    · rw [if_neg hc]
      exact Trimmed.keep r (clear_range_trimmed g s rs)

/-- Every region of the trimmed list covers only addresses that a region of the
original list covered. -/
theorem Trimmed.covers_sub {g s : Nat} {rs rs1 : List mm_region} (h : Trimmed g s rs rs1) :
    ∀ p ∈ rs1, ∃ r ∈ rs, ∀ x, covers p x → covers r x := by
  induction h with
  | nil => intro p hp; exact absurd hp (List.not_mem_nil p)
  | keep r _ ih =>
    intro p hp
    rcases List.mem_cons.mp hp with rfl | hp
    · exact ⟨p, List.mem_cons_self _ _, fun _ hx => hx⟩
    · obtain ⟨q, hq, hsub⟩ := ih p hp
      exact ⟨q, List.mem_cons_of_mem _ hq, hsub⟩
  | trim r _ ih =>
    intro p hp
    rcases List.mem_append.mp hp with hp | hp
    · exact ⟨r, List.mem_cons_self _ _, fun x hx => (remnants_covers g s r p x hp hx).1⟩
    · obtain ⟨q, hq, hsub⟩ := ih p hp
      exact ⟨q, List.mem_cons_of_mem _ hq, hsub⟩

theorem Trimmed.no_overlap {g s : Nat} {rs rs1 : List mm_region} (h : Trimmed g s rs rs1)
    (hno : no_overlap rs) : no_overlap rs1 := by
  unfold Noah.no_overlap at *
  induction h with
  | nil => exact List.Pairwise.nil
  | @keep r rs rs1 ht ih =>
    rw [List.pairwise_cons] at hno ⊢
    refine ⟨?_, ih hno.2⟩
    intro p hp x hx
    obtain ⟨q, hq, hsub⟩ := ht.covers_sub p hp
    exact hno.1 q hq x ⟨hx.1, hsub x hx.2⟩
  | @trim r rs rs1 ht ih =>
    rw [List.pairwise_cons] at hno
    rw [List.pairwise_append]
    refine ⟨remnants_disjoint g s r, ih hno.2, ?_⟩
    intro a ha b hb x hx
    obtain ⟨q, hq, hsub⟩ := ht.covers_sub b hb
    exact hno.1 q hq x ⟨(remnants_covers g s r a x ha hx.1).1, hsub x hx.2⟩

theorem Trimmed.aligned {g s : Nat} {rs rs1 : List mm_region} (h : Trimmed g s rs rs1)
    (hg : g % 4096 = 0) (hs : s % 4096 = 0) (ha : regions_aligned rs) :
    regions_aligned rs1 := by
  unfold regions_aligned at *
  induction h with
  | nil => intro p hp; exact absurd hp (List.not_mem_nil p)
  | keep r _ ih =>
    intro p hp
    rcases List.mem_cons.mp hp with rfl | hp
    · exact ha p (List.mem_cons_self _ _)
    · exact ih (fun q hq => ha q (List.mem_cons_of_mem _ hq)) p hp
  | trim r _ ih =>
    intro p hp
    rcases List.mem_append.mp hp with hp | hp
    · exact remnants_aligned g s r p hg hs (ha r (List.mem_cons_self _ _)) hp
    · exact ih (fun q hq => ha q (List.mem_cons_of_mem _ hq)) p hp

/-! ## Address translation -/

theorem translate_cons (r : mm_region) (rs : List mm_region) (x : Nat) :
    translate (r :: rs) x =
      if covers r x then some (r.haddr + (x - r.gaddr), r.prot, r.mm_flags)
      else translate rs x := by
  unfold translate
  by_cases h : covers r x
  · simp [List.find?_cons, h]
  · simp [List.find?_cons, h]

theorem translate_append (a b : List mm_region) (x : Nat) :
    translate (a ++ b) x = (translate a x).or (translate b x) := by
  induction a with
  | nil => simp [translate]
  | cons r a ih =>
    rw [List.cons_append, translate_cons, translate_cons, ih]
    by_cases h : covers r x
    · simp [h]
    · simp [h]

/-- Outside the cleared range the remnants of a region translate as the region
did. -/
theorem translate_remnants (g s : Nat) (r : mm_region) (x : Nat)
    (hout : x < g ∨ g + s ≤ x) :
    translate (remnants g s r) x = translate [r] x := by
  by_cases hc : region_compare (region_key g s) r = 0
  · have hc2 := (region_compare_key_zero g s r).mp hc
    unfold remnants
    rw [if_pos hc]
    by_cases hl : r.gaddr < g <;> by_cases hr : g + s < r.gaddr + r.size <;>
      by_cases hx : covers r x <;>
      simp only [hl, hr, if_true, if_false, List.singleton_append, List.append_nil,
        List.nil_append, translate_cons, hx, left_remnant, right_remnant, covers] <;>
      unfold covers at hx <;>
      (try split_ifs) <;>
      (try simp only [translate, List.find?_nil, Option.map_none', Option.some.injEq,
        Prod.mk.injEq, and_true, reduceCtorEq]) <;>
      omega
  · rw [remnants_of_no_overlap g s r hc]

theorem Trimmed.translate {g s : Nat} {rs rs1 : List mm_region} (h : Trimmed g s rs rs1)
    (x : Nat) (hout : x < g ∨ g + s ≤ x) : translate rs1 x = translate rs x := by
  induction h with
  | nil => rfl
  | keep r _ ih => rw [translate_cons, translate_cons, ih]
  | trim r _ ih =>
    rw [translate_append, translate_remnants g s r x hout, ih, translate_cons, translate_cons]
    by_cases hx : covers r x
    · simp [hx]
    · simp [hx, Noah.translate]

/-! ## The sweep on a well-formed list -/

theorem flatMap_of_no_overlap (g s : Nat) :
    ∀ rs : List mm_region, (∀ r ∈ rs, region_compare (region_key g s) r ≠ 0) →
      rs.flatMap (remnants g s) = rs ∧ rs.flatMap (released g s) = []
  | [], _ => ⟨rfl, rfl⟩
  | r :: rs, h => by
    obtain ⟨h1, h2⟩ := flatMap_of_no_overlap g s rs
      (fun q hq => h q (List.mem_cons_of_mem _ hq))
    have hr := h r (List.mem_cons_self _ _)
    rw [List.flatMap_cons, List.flatMap_cons, h1, h2, remnants_of_no_overlap g s r hr,
      released_of_no_overlap g s r hr]
    exact ⟨rfl, rfl⟩

/-- On an ordered list of regions of positive length, the sweep started at a
region that ends above `g` trims every region of the list. -/
theorem sweep_full (g s : Nat) :
    ∀ (rs : List mm_region), regions_ordered rs → regions_positive rs →
      (∀ o ∈ rs.head?, g < o.gaddr + o.size) →
      sweep g s rs = (rs.flatMap (remnants g s), rs.flatMap (released g s))
  | [], _, _, _ => rfl
  | o :: tail, hord, hpos, hhead => by
    have hgo : g < o.gaddr + o.size := hhead o rfl
    unfold regions_ordered at hord
    rw [List.pairwise_cons] at hord
    have hpo : 0 < o.size := hpos o (List.mem_cons_self _ _)
    have hpt : regions_positive tail := fun q hq => hpos q (List.mem_cons_of_mem _ hq)
    unfold sweep
    by_cases hc : region_compare (region_key g s) o = 0
    · rw [if_pos hc]
      by_cases hr : g + s < o.gaddr + o.size
      · rw [if_pos hr]
        have hno : ∀ r ∈ tail, region_compare (region_key g s) r ≠ 0 := by
          intro r hr2 hc2
          have := hord.1 r hr2
          rw [region_compare_key_zero] at hc2
          omega
        obtain ⟨h1, h2⟩ := flatMap_of_no_overlap g s tail hno
        rw [List.flatMap_cons, List.flatMap_cons, h1, h2, List.append_nil]
      · rw [if_neg hr]
        have ih := sweep_full g s tail hord.2 hpt (by
          intro t ht
          have hmem : t ∈ tail := List.mem_of_mem_head? ht
          have := hord.1 t hmem
          have := hpt t hmem
          omega)
        rw [ih, List.flatMap_cons, List.flatMap_cons]
    · rw [if_neg hc]
      have hno : ∀ r ∈ o :: tail, region_compare (region_key g s) r ≠ 0 := by
        intro r hr2 hc2
        rcases List.mem_cons.mp hr2 with rfl | hr2
        · exact hc hc2
        · have := hord.1 r hr2
          rw [region_compare_key_zero] at hc hc2
          omega
      obtain ⟨h1, h2⟩ := flatMap_of_no_overlap g s (o :: tail) hno
      rw [h1, h2]

/-- On a well-formed list `do_munmap` trims every region. -/
theorem clear_range_full (g s : Nat) :
    ∀ (rs : List mm_region), regions_ordered rs → regions_positive rs →
      clear_range g s rs = (rs.flatMap (remnants g s), rs.flatMap (released g s))
  | [], _, _ => rfl
  | r :: rs, hord, hpos => by
    unfold clear_range
    by_cases hc : region_compare (region_key g s) r = 0
    · rw [if_pos hc]
      refine sweep_full g s (r :: rs) hord hpos ?_
      intro o ho
      obtain rfl : r = o := by simpa using ho
      rw [region_compare_key_zero] at hc
      omega
    · rw [if_neg hc]
      have hord2 : regions_ordered rs := by
        unfold regions_ordered at hord ⊢
        exact (List.pairwise_cons.mp hord).2
      rw [clear_range_full g s rs hord2 (fun q hq => hpos q (List.mem_cons_of_mem _ hq)),
        List.flatMap_cons, List.flatMap_cons, remnants_of_no_overlap g s r hc,
        released_of_no_overlap g s r hc]
      rfl

/-! ## Effect of `do_munmap` on the state -/

theorem clear_range_of_no_overlap (g s : Nat) (rs : List mm_region)
    (h : ∀ r ∈ rs, region_compare (region_key g s) r ≠ 0) : clear_range g s rs = (rs, []) := by
  induction rs with
  | nil => rfl
  | cons r rs ih =>
    simp only [clear_range, if_neg (h r (List.mem_cons_self _ _)),
      ih (fun q hq => h q (List.mem_cons_of_mem _ hq))]

/-- Whatever the state, `do_munmap` returns, keeps the cursor, and leaves the
list computed by `clear_range`, or refuses an unaligned address and changes
nothing. -/
theorem do_munmap_eq (m : mm) (g size : Nat) :
    (g % 4096 ≠ 0 ∧ do_munmap m g size = some (-LINUX_EINVAL, m, [])) ∨
    (g % 4096 = 0 ∧ ∃ v, (v = 0 ∨ v = -LINUX_ENOMEM) ∧ do_munmap m g size = some (v,
      { m with mm_regions := (clear_range g (roundup size PAGE_SIZE_4KB) m.mm_regions).1 },
      (clear_range g (roundup size PAGE_SIZE_4KB) m.mm_regions).2)) := by
  by_cases h : g % 4096 = 0
  · right
    refine ⟨h, ?_⟩
    by_cases hn : ∃ r ∈ m.mm_regions,
        region_compare (region_key g (roundup size PAGE_SIZE_4KB)) r = 0
    · exact ⟨0, Or.inl rfl, do_munmap_overlap m g size h hn⟩
    · have hn2 : ∀ r ∈ m.mm_regions,
          region_compare (region_key g (roundup size PAGE_SIZE_4KB)) r ≠ 0 :=
        fun r hr hc => hn ⟨r, hr, hc⟩
      refine ⟨-LINUX_ENOMEM, Or.inr rfl, ?_⟩
      rw [do_munmap_no_overlap m g size h hn2, clear_range_of_no_overlap g _ _ hn2]
  · exact Or.inl ⟨h, do_munmap_unaligned m g size h⟩

theorem do_munmap_trimmed (m m1 : mm) (g size : Nat) (v : Int) (calls : List Event)
    (h : do_munmap m g size = some (v, m1, calls)) :
    m1.current_mmap_top = m.current_mmap_top ∧
      (m1 = m ∨ (g % 4096 = 0 ∧
        Trimmed g (roundup size PAGE_SIZE_4KB) m.mm_regions m1.mm_regions)) := by
  rcases do_munmap_eq m g size with ⟨_, h2⟩ | ⟨hg, v2, _, h2⟩
  · rw [h2] at h
    obtain ⟨_, rfl, _⟩ : -LINUX_EINVAL = v ∧ m = m1 ∧ [] = calls := by simpa using h
    exact ⟨rfl, Or.inl rfl⟩
  · rw [h2] at h
    have h3 := Option.some.inj h
    have h4 : m1 = { m with
        mm_regions := (clear_range g (roundup size PAGE_SIZE_4KB) m.mm_regions).1 } :=
      (congrArg (fun t => t.2.1) h3).symm
    subst h4
    exact ⟨rfl, Or.inr ⟨hg, clear_range_trimmed g _ _⟩⟩

/-! ## Recording a region -/

theorem region_compare_zero (a b : mm_region) :
    region_compare a b = 0 ↔
      (a.gaddr < b.gaddr + b.size ∧ b.gaddr < a.gaddr + a.size ∧ 0 < a.size ∧ 0 < b.size) := by
  unfold region_compare
  split_ifs with h1 h2
  · simp only [true_iff]; exact h1
  · constructor
    · intro h; exact absurd h (by decide)
    · intro h; exact absurd h h1
  · constructor
    · intro h; exact absurd h (by decide)
    · intro h; exact absurd h h1

theorem ranges_disjoint_of_compare (a b : mm_region) (h : region_compare a b ≠ 0) :
    ranges_disjoint a b := by
  rw [Ne, region_compare_zero] at h
  intro x hx
  unfold covers at hx
  omega

theorem ranges_disjoint_symm {a b : mm_region} (h : ranges_disjoint a b) :
    ranges_disjoint b a := fun x hx => h x ⟨hx.2, hx.1⟩

theorem insert_ordered_perm (new : mm_region) :
    ∀ rs : List mm_region, (insert_ordered new rs).Perm (new :: rs)
  | [] => List.Perm.refl _
  | r :: rs => by
    unfold insert_ordered
    split_ifs
    · exact ((insert_ordered_perm new rs).cons r).trans (List.Perm.swap new r rs)
    · exact List.Perm.refl _

/-- The result of `record_region`, when it returns. -/
theorem record_region_some (m m1 : mm) (handle haddr gaddr size : Nat) (prot : Int)
    (mm_flags : Nat) (mm_fd pgoff : Int)
    (h : record_region m handle haddr gaddr size prot mm_flags mm_fd pgoff = some m1) :
    m1 = { m with mm_regions :=
      (insert_ordered (mm_region.mk haddr handle gaddr size prot mm_flags mm_fd pgoff)
        m.mm_regions) } ∧
    ∀ r ∈ m.mm_regions, region_compare
      (mm_region.mk haddr handle gaddr size prot mm_flags mm_fd pgoff) r ≠ 0 := by
  unfold record_region at h
  simp only at h
  split_ifs at h with hany
  refine ⟨(Option.some.inj h).symm, ?_⟩
  intro r hr hc
  apply hany
  rw [List.any_eq_true]
  exact ⟨r, hr, by simp [hc]⟩

/-- The call `record_region` returns when no region overlaps the new one. -/
theorem record_region_ok (m : mm) (handle haddr gaddr size : Nat) (prot : Int)
    (mm_flags : Nat) (mm_fd pgoff : Int)
    (h : ∀ r ∈ m.mm_regions, region_compare (region_key gaddr size) r ≠ 0) :
    record_region m handle haddr gaddr size prot mm_flags mm_fd pgoff =
      some { m with mm_regions :=
        (insert_ordered (mm_region.mk haddr handle gaddr size prot mm_flags mm_fd pgoff)
          m.mm_regions) } := by
  unfold record_region
  simp only
  rw [if_neg]
  intro hany
  rw [List.any_eq_true] at hany
  obtain ⟨r, hr, hc⟩ := hany
  have hc2 : region_compare
      (mm_region.mk haddr handle gaddr size prot mm_flags mm_fd pgoff) r = 0 := by
    simpa using hc
  apply h r hr
  rw [region_compare_zero] at hc2
  rw [region_compare_key_zero]
  exact hc2

/-! ## Invariants of the public calls -/

theorem and_0xfff (a : Nat) : a &&& 0xfff = a % 4096 :=
  Nat.and_pow_two_sub_one_eq_mod a 12

theorem roundup_roundup (x : Nat) :
    roundup (roundup x PAGE_SIZE_4KB) PAGE_SIZE_4KB = roundup x PAGE_SIZE_4KB :=
  roundup_of_aligned _ (roundup_dvd x)

/-- The state left by `alloc_region`: the cursor plus the rounded length,
modulo `2^64`. -/
theorem alloc_region_snd (m : mm) (len : Nat) :
    (alloc_region m len).2 =
      { m with
        current_mmap_top := (m.current_mmap_top + roundup len PAGE_SIZE_4KB) % 2 ^ 64 } := by
  unfold alloc_region
  simp only [Nat.add_mod_mod]

/-- The address returned by `alloc_region` is the cursor before the call (a
64-bit value). -/
theorem alloc_region_fst (m : mm) (len : Nat) (h : m.current_mmap_top < 2 ^ 64) :
    (alloc_region m len).1 = m.current_mmap_top := by
  unfold alloc_region
  simp only
  omega

theorem alloc_region_fst_aligned (m : mm) (len : Nat) (h : m.current_mmap_top % 4096 = 0) :
    (alloc_region m len).1 % 4096 = 0 := by
  unfold alloc_region
  simp only
  omega

theorem alloc_region_eq (m : mm) (len : Nat) (h : m.current_mmap_top < 2 ^ 64) :
    alloc_region m len =
      (m.current_mmap_top,
       { m with
         current_mmap_top := (m.current_mmap_top + roundup len PAGE_SIZE_4KB) % 2 ^ 64 }) :=
  Prod.ext (alloc_region_fst m len h) (alloc_region_snd m len)

theorem do_munmap_inv (m m1 : mm) (g size : Nat) (v : Int) (calls : List Event)
    (h : do_munmap m g size = some (v, m1, calls)) (hinv : state_inv m) : state_inv m1 := by
  obtain ⟨hcur, hm | ⟨hg, ht⟩⟩ := do_munmap_trimmed m m1 g size v calls h
  · rw [hm]; exact hinv
  · exact ⟨ht.no_overlap hinv.1, ht.aligned hg (roundup_dvd size) hinv.2.1, by
      rw [hcur]; exact hinv.2.2⟩

theorem record_region_inv (m m1 : mm) (handle haddr gaddr size : Nat) (prot : Int)
    (mm_flags : Nat) (mm_fd pgoff : Int)
    (h : record_region m handle haddr gaddr size prot mm_flags mm_fd pgoff = some m1)
    (hg : gaddr % 4096 = 0) (hs : size % 4096 = 0) (hinv : state_inv m) : state_inv m1 := by
  obtain ⟨rfl, hno⟩ := record_region_some m m1 handle haddr gaddr size prot mm_flags
    mm_fd pgoff h
  have hperm := insert_ordered_perm
    (mm_region.mk haddr handle gaddr size prot mm_flags mm_fd pgoff) m.mm_regions
  refine ⟨?_, ?_, hinv.2.2⟩
  · unfold no_overlap
    rw [hperm.pairwise_iff (fun h => ranges_disjoint_symm h), List.pairwise_cons]
    exact ⟨fun r hr => ranges_disjoint_of_compare _ _ (hno r hr), hinv.1⟩
  · intro r hr
    rcases List.mem_cons.mp (hperm.mem_iff.mp hr) with rfl | hr
    · exact ⟨hg, hs⟩
    · exact hinv.2.1 r hr

theorem do_mmap_inv (m : mm) (host : Option (Nat × Nat)) (addr len : Nat)
    (n_prot l_prot : Int) (l_flags : Nat) (fd offset : Int)
    (res : Int × mm × List Event)
    (h : do_mmap m host addr len n_prot l_prot l_flags fd offset = .ok res)
    (hinv : state_inv m) : state_inv res.2.1 := by
  unfold do_mmap at h
  by_cases h1 : addr &&& 0xfff ≠ 0
  · rw [if_pos h1] at h; cases h
  rw [if_neg h1] at h
  have haddr : addr % 4096 = 0 := by
    rw [← and_0xfff]; exact not_not.mp h1
  by_cases h2 : l_flags &&& LINUX_MAP_PRIVATE = 0 ∧ l_flags &&& LINUX_MAP_ANON = 0
  · rw [if_pos h2] at h
    cases h
    exact hinv
  rw [if_neg h2] at h
  simp only at h
  have hal : state_inv (alloc_region m (roundup len PAGE_SIZE_4KB)).2 ∧
      (alloc_region m (roundup len PAGE_SIZE_4KB)).1 % 4096 = 0 := by
    rw [alloc_region_snd, roundup_roundup]
    refine ⟨⟨hinv.1, hinv.2.1, ?_⟩, alloc_region_fst_aligned _ _ hinv.2.2⟩
    have h5 := roundup_dvd len
    have h6 := hinv.2.2
    simp only
    omega
  split_ifs at h with h3 h4 h5 h6
  · cases h
    exact hal.1
  · cases h
    exact hinv
  · cases host with
    | none => cases h
    | some ph =>
      obtain ⟨ptr, handle⟩ := ph
      simp only at h
      split at h
      · cases h
      · rename_i v m2 calls hmun
        split at h
        · cases h
        · rename_i m3 hrec
          cases h
          exact record_region_inv _ _ _ _ _ _ _ _ _ _ hrec hal.2 (roundup_dvd len)
            (do_munmap_inv _ _ _ _ _ _ hmun hal.1)
  · cases host with
    | none => cases h
    | some ph =>
      obtain ⟨ptr, handle⟩ := ph
      simp only at h
      split at h
      · cases h
      · rename_i v m2 calls hmun
        split at h
        · cases h
        · rename_i m3 hrec
          cases h
          exact record_region_inv _ _ _ _ _ _ _ _ _ _ hrec haddr (roundup_dvd len)
            (do_munmap_inv _ _ _ _ _ _ hmun hinv)

theorem step_inv (m m1 : mm) (c : Call) (h : step m c = some m1) (hinv : state_inv m) :
    state_inv m1 := by
  cases c with
  | mmap host addr len n_prot l_prot l_flags fd offset =>
    simp only [step] at h
    cases hres : do_mmap m host addr len n_prot l_prot l_flags fd offset with
    | error e => rw [hres] at h; cases h
    | ok res =>
      rw [hres] at h
      cases h
      exact do_mmap_inv m host addr len n_prot l_prot l_flags fd offset res hres hinv
  | munmap gaddr size =>
    simp only [step] at h
    obtain ⟨res, hres⟩ := do_munmap_returns m gaddr size
    rw [hres] at h
    cases h
    exact do_munmap_inv m res.2.1 gaddr size res.1 res.2.2 hres hinv

theorem run_inv : ∀ (calls : List Call) (m m1 : mm), run m calls = some m1 → state_inv m →
    state_inv m1
  | [], m, m1, h, hinv => by
    cases h
    exact hinv
  | c :: cs, m, m1, h, hinv => by
    unfold run at h
    cases hs : step m c with
    | none => rw [hs] at h; cases h
    | some m2 =>
      rw [hs] at h
      exact run_inv cs m2 m1 h (step_inv m m2 c hs hinv)

theorem init_mmap_inv (c0 : Nat) :
    state_inv (init_mmap { mm_regions := [], current_mmap_top := c0 }) :=
  ⟨List.Pairwise.nil, fun r hr => absurd hr (List.not_mem_nil r), by
    show 0xc0000000 % 4096 = 0
    norm_num⟩

/-- On a well-formed state with an aligned address, `do_munmap` returns and
replaces every region by its remnants. -/
theorem do_munmap_wf (m : mm) (g size : Nat) (hwf : well_formed m) (hg : g % 4096 = 0) :
    ∃ v, (v = 0 ∨ v = -LINUX_ENOMEM) ∧
      (v = 0 ↔ ∃ r ∈ m.mm_regions,
        region_compare (region_key g (roundup size PAGE_SIZE_4KB)) r = 0) ∧
      do_munmap m g size = some (v,
        { m with mm_regions :=
          m.mm_regions.flatMap (remnants g (roundup size PAGE_SIZE_4KB)) },
        m.mm_regions.flatMap (released g (roundup size PAGE_SIZE_4KB))) := by
  have hfull := clear_range_full g (roundup size PAGE_SIZE_4KB) m.mm_regions hwf.1 hwf.2.2
  by_cases hn : ∃ r ∈ m.mm_regions,
      region_compare (region_key g (roundup size PAGE_SIZE_4KB)) r = 0
  · refine ⟨0, Or.inl rfl, ⟨fun _ => hn, fun _ => rfl⟩, ?_⟩
    rw [do_munmap_overlap m g size hg hn, hfull]
  · have hn2 : ∀ r ∈ m.mm_regions,
        region_compare (region_key g (roundup size PAGE_SIZE_4KB)) r ≠ 0 :=
      fun r hr hc => hn ⟨r, hr, hc⟩
    refine ⟨-LINUX_ENOMEM, Or.inr rfl, ⟨fun h => absurd h (by decide), fun h => absurd h hn⟩, ?_⟩
    rw [do_munmap_no_overlap m g size hg hn2]
    have hcl := clear_range_of_no_overlap g _ _ hn2
    rw [hfull] at hcl
    have h1 := congrArg Prod.fst hcl
    have h2 := congrArg Prod.snd hcl
    simp only at h1 h2
    rw [h1, h2]

/-! ## Flag words -/

theorem and_not_and_not (f x y : Nat) : and_not (and_not f x) y = and_not f (x ||| y) := by
  apply Nat.eq_of_testBit_eq
  intro i
  simp only [and_not, Nat.testBit_xor, Nat.testBit_and, Nat.testBit_or]
  cases f.testBit i <;> cases x.testBit i <;> cases y.testBit i <;> rfl

theorem and_not_and_of_disjoint (f x y : Nat) (h : x &&& y = 0) :
    and_not f x &&& y = f &&& y := by
  apply Nat.eq_of_testBit_eq
  intro i
  have hi : (x &&& y).testBit i = false := by rw [h]; exact Nat.zero_testBit i
  rw [Nat.testBit_and] at hi
  simp only [and_not, Nat.testBit_xor, Nat.testBit_and]
  revert hi
  cases f.testBit i <;> cases x.testBit i <;> cases y.testBit i <;> simp

theorem cleared_flags_eq (f : Nat) : cleared_flags f = and_not f ADVISORY_MASK := by
  unfold cleared_flags
  rw [and_not_and_not, and_not_and_not, and_not_and_not]
  rfl

theorem cleared_flags_and (f y : Nat) (h : ADVISORY_MASK &&& y = 0) :
    cleared_flags f &&& y = f &&& y := by
  rw [cleared_flags_eq, and_not_and_of_disjoint f _ y h]

/-- The fixed anonymous path of `do_mmap`: with an aligned address, `ANON` and
`FIXED` set and no bit outside the recognized and advisory sets, the call is
the host allocation followed by `do_munmap`, `record_region` and `vm_mmap`. -/
theorem do_mmap_fixed_eq (m : mm) (ptr handle addr len : Nat) (n_prot l_prot : Int)
    (l_flags : Nat) (fd offset : Int) (haddr : addr % 4096 = 0)
    (hanon : l_flags &&& LINUX_MAP_ANON ≠ 0) (hfixed : l_flags &&& LINUX_MAP_FIXED ≠ 0)
    (hrec : and_not l_flags (ADVISORY_MASK ||| RECOGNIZED_MASK) = 0) :
    do_mmap m (some (ptr, handle)) addr len n_prot l_prot l_flags fd offset =
      match do_munmap m addr (roundup len PAGE_SIZE_4KB) with
      | none =>
        .error (.loop_bound, m,
          [Event.platform_map_mem (roundup len PAGE_SIZE_4KB) n_prot (cleared_flags l_flags)])
      | some (_, m2, calls) =>
        match record_region m2 handle ptr addr (roundup len PAGE_SIZE_4KB) l_prot
            (cleared_flags l_flags) (-1) 0 with
        | none =>
          .error (.panic_overlapping, m2,
            Event.platform_map_mem (roundup len PAGE_SIZE_4KB) n_prot (cleared_flags l_flags)
              :: calls)
        | some m3 =>
          .ok ((addr : Int), m3,
            Event.platform_map_mem (roundup len PAGE_SIZE_4KB) n_prot (cleared_flags l_flags)
              :: calls ++ [Event.vm_mmap addr (roundup len PAGE_SIZE_4KB) l_prot ptr]) := by
  have h1 : ¬ (addr &&& 0xfff ≠ 0) := by rw [and_0xfff]; exact not_not.mpr haddr
  have h2 : ¬ (l_flags &&& LINUX_MAP_PRIVATE = 0 ∧ l_flags &&& LINUX_MAP_ANON = 0) :=
    fun h => hanon h.2
  have h3 : ¬ (and_not (cleared_flags l_flags)
      (LINUX_MAP_SHARED ||| LINUX_MAP_PRIVATE ||| LINUX_MAP_FIXED ||| LINUX_MAP_ANON) ≠ 0) := by
    rw [cleared_flags_eq, and_not_and_not]
    exact not_not.mpr hrec
  have h4 : cleared_flags l_flags &&& LINUX_MAP_ANON ≠ 0 := by
    rw [cleared_flags_and l_flags _ (by decide)]; exact hanon
  have h5 : ¬ (cleared_flags l_flags &&& LINUX_MAP_FIXED = 0) := by
    rw [cleared_flags_and l_flags _ (by decide)]; exact hfixed
  unfold cleared_flags at h3 h4 h5
  unfold do_mmap
  rw [if_neg h1, if_neg h2]
  simp only [if_neg h3, if_neg h5, if_pos h4, if_neg h4]
  rfl

/-- C1, no-overlap invariant: from the state made by `init_mmap` with an empty
directory, after any finite sequence of `do_mmap` / `do_munmap` calls that all
return (hence after every call of such a sequence), two regions at different
places of the directory have no guest address in common. -/
theorem no_overlap_invariant (c0 : Nat) (calls : List Call) (m : mm)
    (h : run (init_mmap { mm_regions := [], current_mmap_top := c0 }) calls = some m) :
    ∀ (i j : Nat) (A B : mm_region), i ≠ j →
      m.mm_regions[i]? = some A → m.mm_regions[j]? = some B →
      ∀ x, ¬ ((A.gaddr ≤ x ∧ x < A.gaddr + A.size) ∧ (B.gaddr ≤ x ∧ x < B.gaddr + B.size)) := by
  have hinv := run_inv calls _ m h (init_mmap_inv c0)
  have hp := List.pairwise_iff_getElem.mp hinv.1
  intro i j A B hij hA hB x hx
  obtain ⟨hi, rfl⟩ := List.getElem?_eq_some.mp hA
  obtain ⟨hj, rfl⟩ := List.getElem?_eq_some.mp hB
  rcases Nat.lt_or_gt_of_ne hij with hlt | hgt
  · exact hp i j hi hj hlt x hx
  · exact hp j i hj hi hgt x ⟨hx.2, hx.1⟩

/-- Witness of C1 on a run of four calls. -/
theorem no_overlap_invariant_witness :
    run (init_mmap { mm_regions := [], current_mmap_top := 0 }) example_calls
        = some example_state ∧
      ∀ (i j : Nat) (A B : mm_region), i ≠ j →
        example_state.mm_regions[i]? = some A → example_state.mm_regions[j]? = some B →
        ∀ x, ¬ ((A.gaddr ≤ x ∧ x < A.gaddr + A.size) ∧
          (B.gaddr ≤ x ∧ x < B.gaddr + B.size)) :=
  ⟨by rfl, no_overlap_invariant 0 example_calls example_state (by rfl)⟩

/-- C2, alignment invariant: from the state made by `init_mmap` with an empty
directory, after any sequence of `do_mmap` / `do_munmap` calls that all return,
the base and the length of every live region are multiples of 4096, whatever
the lengths passed in. -/
theorem alignment_invariant (c0 : Nat) (calls : List Call) (m : mm)
    (h : run (init_mmap { mm_regions := [], current_mmap_top := c0 }) calls = some m) :
    ∀ r ∈ m.mm_regions, r.gaddr % 4096 = 0 ∧ r.size % 4096 = 0 :=
  (run_inv calls _ m h (init_mmap_inv c0)).2.1

/-- Witness of C2: the run contains a mapping of length 5, recorded with
length 4096. -/
theorem alignment_invariant_witness :
    run (init_mmap { mm_regions := [], current_mmap_top := 0 }) example_calls
        = some example_state ∧
      ∀ r ∈ example_state.mm_regions, r.gaddr % 4096 = 0 ∧ r.size % 4096 = 0 :=
  ⟨by rfl, alignment_invariant 0 example_calls example_state (by rfl)⟩

/-- C3 as stated fails on a state with a region of length `0`.  The state
`zero_gap`, reached from the initial state by three fixed mappings, has regions
that are pairwise disjoint, page-aligned and in address order;
`do_munmap 0x1000 0x3000` returns `0` after removing the first region only (the
loop stops at the region of length `0`, which overlaps nothing), and the region
`[0x3000, 0x4000)` is still live inside the range. -/
theorem do_munmap_clears_range_counterexample :
    run initial_state zero_gap_calls = some zero_gap ∧
    no_overlap zero_gap.mm_regions ∧ regions_aligned zero_gap.mm_regions ∧
    regions_ordered zero_gap.mm_regions ∧ 0x1000 % 4096 = 0 ∧
    do_munmap zero_gap 0x1000 0x3000 = some (0,
      { mm_regions :=
          [mm_region.mk 0x800000 2 0x2000 0 3 0x32 (-1) 0,
           mm_region.mk 0x900000 3 0x3000 0x1000 3 0x32 (-1) 0],
        current_mmap_top := 0xc0000000 },
      [Event.vm_munmap 0x1000 0x1000, Event.platform_unmap_mem 0x700000 1 0x1000]) ∧
    ¬ (∀ r ∈ [mm_region.mk 0x800000 2 0x2000 0 3 0x32 (-1) 0,
             mm_region.mk 0x900000 3 0x3000 0x1000 3 0x32 (-1) 0],
        ∀ x, r.gaddr ≤ x ∧ x < r.gaddr + r.size →
          ¬ (0x1000 ≤ x ∧ x < 0x1000 + roundup 0x3000 PAGE_SIZE_4KB)) := by
  refine ⟨by rfl, ?_, ?_, ?_, by decide, by rfl, ?_⟩
  · simp only [no_overlap, zero_gap, List.pairwise_cons, List.mem_cons, List.mem_singleton,
      List.not_mem_nil, forall_eq_or_imp, forall_eq, ranges_disjoint, covers,
      List.Pairwise.nil, and_true, false_imp_iff, implies_true]
    refine ⟨⟨?_, ?_⟩, ?_⟩ <;> intro x <;> omega
  · simp [regions_aligned, zero_gap]
  · simp [regions_ordered, zero_gap]
  · intro h
    exact h (mm_region.mk 0x900000 3 0x3000 0x1000 3 0x32 (-1) 0) (by simp) 0x3000
      (by decide) (by decide)

/-- C3 amended, `do_munmap` clears its target range: in a state whose regions
are disjoint, page-aligned, listed in address order and of positive length,
when `do_munmap gaddr size` returns `0` no live region covers an address of
`[gaddr, gaddr + roundup size)`, however many regions overlapped the range. -/
theorem do_munmap_clears_range (m m1 : mm) (gaddr size : Nat) (calls : List Event)
    (hwf : well_formed m) (hg : gaddr % 4096 = 0)
    (h : do_munmap m gaddr size = some (0, m1, calls)) :
    ∀ r ∈ m1.mm_regions, ∀ x, r.gaddr ≤ x ∧ x < r.gaddr + r.size →
      ¬ (gaddr ≤ x ∧ x < gaddr + roundup size PAGE_SIZE_4KB) := by
  obtain ⟨v, _, _, heq⟩ := do_munmap_wf m gaddr size hwf hg
  rw [heq] at h
  have hm : m1 = { m with mm_regions :=
      m.mm_regions.flatMap (remnants gaddr (roundup size PAGE_SIZE_4KB)) } :=
    (congrArg (fun t => t.2.1) (Option.some.inj h)).symm
  subst hm
  intro r hr x hx hin
  obtain ⟨q, _, hq⟩ := List.mem_flatMap.mp hr
  have := (remnants_covers gaddr _ q r x hq hx).2
  omega

/-- Witness of C3: the range `[0x2000, 0x6000)` overlaps both regions of
`two_regions`. -/
theorem do_munmap_clears_range_witness :
    well_formed two_regions ∧ 0x2000 % 4096 = 0 ∧
      do_munmap two_regions 0x2000 0x4000 = some (0,
        { mm_regions :=
            [mm_region.mk 0x700000 1 0x1000 0x1000 3 0x32 (-1) 0,
             mm_region.mk 0x901000 2 0x6000 0x1000 1 0x32 (-1) 0],
          current_mmap_top := 0xc0000000 },
        [Event.vm_munmap 0x2000 0x2000, Event.platform_unmap_mem 0x701000 1 0x2000,
         Event.vm_munmap 0x5000 0x1000, Event.platform_unmap_mem 0x900000 2 0x1000]) ∧
      ∀ r ∈ [mm_region.mk 0x700000 1 0x1000 0x1000 3 0x32 (-1) 0,
             mm_region.mk 0x901000 2 0x6000 0x1000 1 0x32 (-1) 0],
        ∀ x, r.gaddr ≤ x ∧ x < r.gaddr + r.size →
          ¬ (0x2000 ≤ x ∧ x < 0x2000 + roundup 0x4000 PAGE_SIZE_4KB) :=
  have hwf : well_formed two_regions := by
    refine ⟨?_, ?_, ?_⟩
    · simp [regions_ordered, two_regions]
    · simp [regions_aligned, two_regions]
    · simp [regions_positive, two_regions]
  ⟨hwf, by decide, by rfl,
    do_munmap_clears_range two_regions _ 0x2000 0x4000 _ hwf (by decide) (by rfl)⟩

/-- C4, `do_munmap` touches nothing outside its target range: in a well-formed
state, when `do_munmap gaddr size` returns `0`, every guest address outside
`[gaddr, gaddr + roundup size)` is covered after the call exactly when it was
before, with the same host address, protection and mapping flags; a region
that reaches below `gaddr` keeps its part below `gaddr`, a region that reaches
above the end of the range keeps its part above it; the cursor is unchanged. -/
theorem do_munmap_frame (m m1 : mm) (gaddr size : Nat) (calls : List Event)
    (hwf : well_formed m) (hg : gaddr % 4096 = 0)
    (h : do_munmap m gaddr size = some (0, m1, calls)) :
    (∀ x, x < gaddr ∨ gaddr + roundup size PAGE_SIZE_4KB ≤ x →
      translate m1.mm_regions x = translate m.mm_regions x) ∧
    (∀ r ∈ m.mm_regions, r.gaddr < gaddr → gaddr < r.gaddr + r.size →
      left_remnant gaddr r ∈ m1.mm_regions) ∧
    (∀ r ∈ m.mm_regions, r.gaddr < gaddr + roundup size PAGE_SIZE_4KB →
      gaddr + roundup size PAGE_SIZE_4KB < r.gaddr + r.size →
      right_remnant (gaddr + roundup size PAGE_SIZE_4KB) r ∈ m1.mm_regions) ∧
    m1.current_mmap_top = m.current_mmap_top := by
  obtain ⟨v, _, hv, heq⟩ := do_munmap_wf m gaddr size hwf hg
  rw [heq] at h
  have h0 : v = 0 := congrArg (fun t => t.1) (Option.some.inj h)
  have hm : m1 = { m with mm_regions :=
      m.mm_regions.flatMap (remnants gaddr (roundup size PAGE_SIZE_4KB)) } :=
    (congrArg (fun t => t.2.1) (Option.some.inj h)).symm
  subst hm
  obtain ⟨o, ho, hco⟩ := hv.mp h0
  have hs : 0 < roundup size PAGE_SIZE_4KB := ((region_compare_key_zero _ _ _).mp hco).2.2.1
  have htr : Trimmed gaddr (roundup size PAGE_SIZE_4KB) m.mm_regions
      (m.mm_regions.flatMap (remnants gaddr (roundup size PAGE_SIZE_4KB))) := by
    have := clear_range_trimmed gaddr (roundup size PAGE_SIZE_4KB) m.mm_regions
    rwa [clear_range_full gaddr _ m.mm_regions hwf.1 hwf.2.2] at this
  refine ⟨fun x hx => htr.translate x hx, ?_, ?_, rfl⟩
  · intro r hr hlo hhi
    refine List.mem_flatMap.mpr ⟨r, hr, (mem_remnants _ _ _ _).mpr (Or.inr ⟨?_, Or.inl ⟨hlo, rfl⟩⟩)⟩
    rw [region_compare_key_zero]
    omega
  · intro r hr hlo hhi
    refine List.mem_flatMap.mpr ⟨r, hr, (mem_remnants _ _ _ _).mpr (Or.inr ⟨?_, Or.inr ⟨hhi, rfl⟩⟩)⟩
    rw [region_compare_key_zero]
    omega

/-- Witness of C4 on `two_regions` and the range `[0x2000, 0x6000)`: address
`0x6010`, above the range, keeps its host address `0x901010`. -/
theorem do_munmap_frame_witness :
    well_formed two_regions ∧
    do_munmap two_regions 0x2000 0x4000 = some (0, two_regions_cleared,
      [Event.vm_munmap 0x2000 0x2000, Event.platform_unmap_mem 0x701000 1 0x2000,
       Event.vm_munmap 0x5000 0x1000, Event.platform_unmap_mem 0x900000 2 0x1000]) ∧
    translate two_regions.mm_regions 0x6010 = some (0x901010, 1, 0x32) ∧
    ((∀ x, x < 0x2000 ∨ 0x2000 + roundup 0x4000 PAGE_SIZE_4KB ≤ x →
      translate two_regions_cleared.mm_regions x = translate two_regions.mm_regions x) ∧
    (∀ r ∈ two_regions.mm_regions, r.gaddr < 0x2000 → 0x2000 < r.gaddr + r.size →
      left_remnant 0x2000 r ∈ two_regions_cleared.mm_regions) ∧
    (∀ r ∈ two_regions.mm_regions, r.gaddr < 0x2000 + roundup 0x4000 PAGE_SIZE_4KB →
      0x2000 + roundup 0x4000 PAGE_SIZE_4KB < r.gaddr + r.size →
      right_remnant (0x2000 + roundup 0x4000 PAGE_SIZE_4KB) r ∈
        two_regions_cleared.mm_regions) ∧
    two_regions_cleared.current_mmap_top = two_regions.current_mmap_top) :=
  have hwf : well_formed two_regions := by
    refine ⟨?_, ?_, ?_⟩
    · simp [regions_ordered, two_regions]
    · simp [regions_aligned, two_regions]
    · simp [regions_positive, two_regions]
  ⟨hwf, by rfl, by rfl,
    do_munmap_frame two_regions two_regions_cleared 0x2000 0x4000 _ hwf (by decide) (by rfl)⟩

/-- C8, unmap of an unmapped range: for every state and every page-aligned
`gaddr`, when no live region covers an address of `[gaddr, gaddr + roundup size)`
the call returns `-LINUX_ENOMEM`, the state (regions, their order, the cursor)
is unchanged and no external call is made. -/
theorem do_munmap_unmapped (m : mm) (gaddr size : Nat) (hg : gaddr % 4096 = 0)
    (hfree : ∀ r ∈ m.mm_regions, ∀ x, r.gaddr ≤ x ∧ x < r.gaddr + r.size →
      ¬ (gaddr ≤ x ∧ x < gaddr + roundup size PAGE_SIZE_4KB)) :
    do_munmap m gaddr size = some (-LINUX_ENOMEM, m, []) := by
  apply do_munmap_no_overlap m gaddr size hg
  intro r hr hc
  obtain ⟨x, hx, hin⟩ := (region_compare_key_zero_iff_covers _ _ _).mp hc
  exact hfree r hr x hx hin

/-- Witness of C8: the hole `[0x4000, 0x5000)` of `two_regions`. -/
theorem do_munmap_unmapped_witness :
    0x4000 % 4096 = 0 ∧ do_munmap two_regions 0x4000 0x1000
      = some (-LINUX_ENOMEM, two_regions, []) :=
  ⟨by decide, do_munmap_unmapped two_regions 0x4000 0x1000 (by decide) (by
    intro r hr x hx
    simp only [two_regions, List.mem_cons, List.mem_singleton, List.not_mem_nil,
      or_false] at hr
    have h5 : roundup 0x1000 PAGE_SIZE_4KB = 0x1000 := by rfl
    rw [h5]
    rcases hr with rfl | rfl
    · simp only at hx; omega
    · simp only at hx; omega)⟩

/-- C9, unaligned-address rejection in unmap: for every state, every `gaddr`
that is not a multiple of 4096 and every `size`, `do_munmap` returns
`-LINUX_EINVAL`, leaves the state unchanged and makes no external call. -/
theorem do_munmap_rejects_unaligned (m : mm) (gaddr size : Nat) (hg : gaddr % 4096 ≠ 0) :
    do_munmap m gaddr size = some (-LINUX_EINVAL, m, []) := by
  have hf : is_page_aligned gaddr = false := by
    rw [← Bool.not_eq_true, is_page_aligned_iff]; exact hg
  simp only [do_munmap, hf, Bool.not_false, if_true]

/-- Witness of C9: `gaddr = 0x1001`, `size = 0x1000`, on a state where the range
is mapped. -/
theorem do_munmap_rejects_unaligned_witness :
    0x1001 % 4096 ≠ 0 ∧
      do_munmap two_regions 0x1001 0x1000 = some (-LINUX_EINVAL, two_regions, []) :=
  ⟨by decide, do_munmap_rejects_unaligned two_regions 0x1001 0x1000 (by decide)⟩

/-- C10 as stated fails: from the cursor `0xc0000000` set by `init_mmap`,
`alloc_region 0xffffffff40000000` leaves the cursor at `0`, which is below the
cursor before the call and is not that cursor plus the rounded length. -/
theorem alloc_region_contract_counterexample :
    initial_state.current_mmap_top = 0xc0000000 ∧
    roundup 0xffffffff40000000 PAGE_SIZE_4KB = 0xffffffff40000000 ∧
    (alloc_region initial_state 0xffffffff40000000).2.current_mmap_top = 0 ∧
    ¬ initial_state.current_mmap_top ≤
      (alloc_region initial_state 0xffffffff40000000).2.current_mmap_top ∧
    (alloc_region initial_state 0xffffffff40000000).2.current_mmap_top ≠
      initial_state.current_mmap_top + roundup 0xffffffff40000000 PAGE_SIZE_4KB := by
  decide

/-- C10 amended, address allocator contract: `init_mmap` sets the cursor to
`0xc0000000` and changes nothing else; `alloc_region len` leaves the same state
with the cursor advanced by `roundup len 4096` modulo `2^64` and returns the
cursor before the call (a 64-bit value).  When the cursor plus the rounded
length is below `2^64` the new cursor is that sum and the cursor does not
decrease.  After `init_mmap` and any sequence of `alloc_region` calls the
cursor is a multiple of 4096 and a 64-bit value, and it is `0xc0000000` plus
the rounded lengths when that sum is below `2^64`. -/
theorem alloc_region_contract :
    (∀ m : mm, (init_mmap m).current_mmap_top = 0xc0000000 ∧
      (init_mmap m).mm_regions = m.mm_regions) ∧
    (∀ (m : mm) (len : Nat),
      (alloc_region m len).2 =
        { m with
          current_mmap_top := (m.current_mmap_top + roundup len PAGE_SIZE_4KB) % 2 ^ 64 } ∧
      (m.current_mmap_top < 2 ^ 64 → (alloc_region m len).1 = m.current_mmap_top) ∧
      (m.current_mmap_top + roundup len PAGE_SIZE_4KB < 2 ^ 64 →
        (alloc_region m len).2.current_mmap_top =
          m.current_mmap_top + roundup len PAGE_SIZE_4KB ∧
        m.current_mmap_top ≤ (alloc_region m len).2.current_mmap_top)) ∧
    (∀ (m : mm) (lens : List Nat),
      (lens.foldl (fun s len => (alloc_region s len).2) (init_mmap m)).current_mmap_top % 4096
        = 0 ∧
      (lens.foldl (fun s len => (alloc_region s len).2) (init_mmap m)).current_mmap_top
        < 2 ^ 64 ∧
      (0xc0000000 + (lens.map (fun len => roundup len PAGE_SIZE_4KB)).sum < 2 ^ 64 →
        (lens.foldl (fun s len => (alloc_region s len).2) (init_mmap m)).current_mmap_top =
          0xc0000000 + (lens.map (fun len => roundup len PAGE_SIZE_4KB)).sum)) := by
  refine ⟨fun m => ⟨rfl, rfl⟩, ?_, ?_⟩
  · intro m len
    refine ⟨alloc_region_snd m len, alloc_region_fst m len, ?_⟩
    intro h
    rw [alloc_region_snd]
    simp only
    rw [Nat.mod_eq_of_lt h]
    exact ⟨rfl, Nat.le_add_right _ _⟩
  · intro m lens
    have key : ∀ (lens : List Nat) (s : mm), s.current_mmap_top % 4096 = 0 →
        s.current_mmap_top < 2 ^ 64 →
        (lens.foldl (fun s len => (alloc_region s len).2) s).current_mmap_top % 4096 = 0 ∧
        (lens.foldl (fun s len => (alloc_region s len).2) s).current_mmap_top < 2 ^ 64 ∧
        (s.current_mmap_top + (lens.map (fun len => roundup len PAGE_SIZE_4KB)).sum < 2 ^ 64 →
          (lens.foldl (fun s len => (alloc_region s len).2) s).current_mmap_top =
            s.current_mmap_top + (lens.map (fun len => roundup len PAGE_SIZE_4KB)).sum) := by
      intro lens
      induction lens with
      | nil =>
        intro s h1 h2
        exact ⟨h1, h2, fun _ => by simp only [List.foldl_nil, List.map_nil, List.sum_nil,
          Nat.add_zero]⟩
      | cons l ls ih =>
        intro s h1 h2
        rw [List.foldl_cons]
        have hd := roundup_dvd l
        have e1 : (alloc_region s l).2.current_mmap_top =
            (s.current_mmap_top + roundup l PAGE_SIZE_4KB) % 2 ^ 64 := by
          rw [alloc_region_snd]
        obtain ⟨i1, i2, i3⟩ := ih (alloc_region s l).2 (by rw [e1]; omega)
          (by rw [e1]; omega)
        refine ⟨i1, i2, ?_⟩
        intro hsum
        rw [List.map_cons, List.sum_cons] at hsum
        rw [i3 (by rw [e1]; omega), e1, List.map_cons, List.sum_cons]
        omega
    refine key lens (init_mmap m) ?_ ?_
    · show 0xc0000000 % 4096 = 0
      norm_num
    · show 0xc0000000 < 2 ^ 64
      norm_num

/-- Witness of C10 amended: `alloc_region 5` on the initial state returns
`0xc0000000` and leaves the cursor at `0xc0001000`. -/
theorem alloc_region_contract_witness :
    initial_state.current_mmap_top < 2 ^ 64 ∧
    (alloc_region initial_state 5).1 = initial_state.current_mmap_top ∧
    initial_state.current_mmap_top + roundup 5 PAGE_SIZE_4KB < 2 ^ 64 ∧
    (alloc_region initial_state 5).2.current_mmap_top =
      initial_state.current_mmap_top + roundup 5 PAGE_SIZE_4KB ∧
    initial_state.current_mmap_top + roundup 5 PAGE_SIZE_4KB = 0xc0001000 :=
  ⟨by decide,
    (alloc_region_contract.2.1 initial_state 5).2.1 (by decide),
    by decide,
    ((alloc_region_contract.2.1 initial_state 5).2.2 (by decide)).1,
    by decide⟩

/-- C6, end-to-end scenario C: from an empty directory, a fixed anonymous
private mapping of `[0x1000, 0x4000)` followed by one of `[0x2000, 0x3000)`
leaves exactly three regions `[0x1000,0x2000)`, `[0x2000,0x3000)`,
`[0x3000,0x4000)`; the middle one is the new mapping, the first and the third
are the remnants of the first mapping, with its host pointer plus `0` and plus
`0x2000`. -/
theorem scenario_C (c0 ptr1 handle1 ptr2 handle2 : Nat) (n_prot1 l_prot1 n_prot2 l_prot2 : Int)
    (fd1 offset1 fd2 offset2 : Int) :
    do_mmap { mm_regions := [], current_mmap_top := c0 } (some (ptr1, handle1))
        0x1000 0x3000 n_prot1 l_prot1
        (LINUX_MAP_FIXED ||| LINUX_MAP_ANON ||| LINUX_MAP_PRIVATE) fd1 offset1
      = .ok (0x1000,
          { mm_regions := [mm_region.mk ptr1 handle1 0x1000 0x3000 l_prot1 0x32 (-1) 0],
            current_mmap_top := c0 },
          [Event.platform_map_mem 0x3000 n_prot1 0x32,
           Event.vm_mmap 0x1000 0x3000 l_prot1 ptr1]) ∧
    do_mmap
        { mm_regions := [mm_region.mk ptr1 handle1 0x1000 0x3000 l_prot1 0x32 (-1) 0],
          current_mmap_top := c0 }
        (some (ptr2, handle2)) 0x2000 0x1000 n_prot2 l_prot2
        (LINUX_MAP_FIXED ||| LINUX_MAP_ANON ||| LINUX_MAP_PRIVATE) fd2 offset2
      = .ok (0x2000,
          { mm_regions :=
              [mm_region.mk ptr1 handle1 0x1000 0x1000 l_prot1 0x32 (-1) 0,
               mm_region.mk ptr2 handle2 0x2000 0x1000 l_prot2 0x32 (-1) 0,
               mm_region.mk (ptr1 + 0x2000) handle1 0x3000 0x1000 l_prot1 0x32 (-1) 0],
            current_mmap_top := c0 },
          [Event.platform_map_mem 0x1000 n_prot2 0x32,
           Event.vm_munmap 0x2000 0x1000,
           Event.platform_unmap_mem (ptr1 + 0x1000) handle1 0x1000,
           Event.vm_mmap 0x2000 0x1000 l_prot2 ptr2]) := by
  constructor
  · rw [do_mmap_fixed_eq _ _ _ _ _ _ _ _ _ _ (by decide) (by decide) (by decide) (by decide)]
    rfl
  · have hflags :
        cleared_flags (LINUX_MAP_FIXED ||| LINUX_MAP_ANON ||| LINUX_MAP_PRIVATE) = 0x32 := by
      decide
    have hlen : roundup 0x1000 PAGE_SIZE_4KB = 0x1000 := by decide
    have hcr : clear_range 0x2000 0x1000
        [mm_region.mk ptr1 handle1 0x1000 0x3000 l_prot1 0x32 (-1) 0]
        = ([mm_region.mk ptr1 handle1 0x1000 0x1000 l_prot1 0x32 (-1) 0,
            mm_region.mk (ptr1 + 0x2000) handle1 0x3000 0x1000 l_prot1 0x32 (-1) 0],
           [Event.vm_munmap 0x2000 0x1000,
            Event.platform_unmap_mem (ptr1 + 0x1000) handle1 0x1000]) := by
      have h50 : (50 &&& 32 : Nat) ≠ 0 := by decide
      simp only [clear_range, region_compare, region_key, sweep, remnants, released]
      simp only [left_remnant, right_remnant, inside_base, inside_end, LINUX_MAP_ANON]
      norm_num [h50]
    have hrr : record_region
        { mm_regions :=
            [mm_region.mk ptr1 handle1 0x1000 0x1000 l_prot1 0x32 (-1) 0,
             mm_region.mk (ptr1 + 0x2000) handle1 0x3000 0x1000 l_prot1 0x32 (-1) 0],
          current_mmap_top := c0 } handle2 ptr2 0x2000 0x1000 l_prot2 0x32 (-1) 0
        = some
          { mm_regions :=
              [mm_region.mk ptr1 handle1 0x1000 0x1000 l_prot1 0x32 (-1) 0,
               mm_region.mk ptr2 handle2 0x2000 0x1000 l_prot2 0x32 (-1) 0,
               mm_region.mk (ptr1 + 0x2000) handle1 0x3000 0x1000 l_prot1 0x32 (-1) 0],
            current_mmap_top := c0 } := by
      simp only [record_region, List.any, region_compare]
      norm_num [insert_ordered, region_compare]
    rw [do_mmap_fixed_eq _ _ _ _ _ _ _ _ _ _ (by decide) (by decide) (by decide) (by decide),
      hflags, hlen,
      do_munmap_overlap _ _ _ (by decide)
        ⟨mm_region.mk ptr1 handle1 0x1000 0x3000 l_prot1 0x32 (-1) 0,
          List.mem_singleton_self _, by simp [region_compare, region_key, hlen]⟩,
      hlen, hcr]
    simp only [hrr]
    rfl

/-- C7 as stated fails: after the fixed mapping of `[0x1000, 0x3000)`,
`do_munmap 0x1800 0x1000` does not leave the regions `[0x1000,0x1800)` and
`[0x2800,0x3000)`. -/
theorem scenario_B_counterexample :
    ¬ ∃ m1 m2 v1 v2 calls1 calls2,
      do_mmap { mm_regions := [], current_mmap_top := 0xc0000000 } (some (0x700000, 1))
          0x1000 0x2000 3 3 (LINUX_MAP_FIXED ||| LINUX_MAP_ANON ||| LINUX_MAP_PRIVATE) (-1) 0
        = .ok (v1, m1, calls1) ∧
      do_munmap m1 0x1800 0x1000 = some (v2, m2, calls2) ∧
      m2.mm_regions.map (fun r => (r.gaddr, r.size)) = [(0x1000, 0x800), (0x2800, 0x800)] := by
  rintro ⟨m1, m2, v1, v2, calls1, calls2, h1, h2, h3⟩
  have e1 : do_mmap { mm_regions := [], current_mmap_top := 0xc0000000 } (some (0x700000, 1))
      0x1000 0x2000 3 3 (LINUX_MAP_FIXED ||| LINUX_MAP_ANON ||| LINUX_MAP_PRIVATE) (-1) 0
      = .ok (0x1000,
          { mm_regions := [mm_region.mk 0x700000 1 0x1000 0x2000 3 0x32 (-1) 0],
            current_mmap_top := 0xc0000000 },
          [Event.platform_map_mem 0x2000 3 0x32, Event.vm_mmap 0x1000 0x2000 3 0x700000]) := by
    rfl
  rw [e1] at h1
  cases h1
  rw [do_munmap_unaligned _ 0x1800 0x1000 (by decide)] at h2
  cases h2
  exact absurd h3 (by decide)

/-- C7 amended, scenario B on the code: from an empty directory, the fixed
anonymous private mapping of `[0x1000, 0x3000)` succeeds, and
`do_munmap 0x1800 0x1000` is then refused with `-LINUX_EINVAL` because `0x1800`
is not a multiple of 4096; the single region `[0x1000, 0x3000)` stays. -/
theorem scenario_B_unaligned_refused (c0 ptr handle : Nat) (n_prot l_prot : Int)
    (fd offset : Int) :
    do_mmap { mm_regions := [], current_mmap_top := c0 } (some (ptr, handle))
        0x1000 0x2000 n_prot l_prot
        (LINUX_MAP_FIXED ||| LINUX_MAP_ANON ||| LINUX_MAP_PRIVATE) fd offset
      = .ok (0x1000,
          { mm_regions := [mm_region.mk ptr handle 0x1000 0x2000 l_prot 0x32 (-1) 0],
            current_mmap_top := c0 },
          [Event.platform_map_mem 0x2000 n_prot 0x32, Event.vm_mmap 0x1000 0x2000 l_prot ptr]) ∧
    do_munmap
        { mm_regions := [mm_region.mk ptr handle 0x1000 0x2000 l_prot 0x32 (-1) 0],
          current_mmap_top := c0 } 0x1800 0x1000
      = some (-LINUX_EINVAL,
          { mm_regions := [mm_region.mk ptr handle 0x1000 0x2000 l_prot 0x32 (-1) 0],
            current_mmap_top := c0 }, []) := by
  constructor
  · rw [do_mmap_fixed_eq _ _ _ _ _ _ _ _ _ _ (by decide) (by decide) (by decide) (by decide)]
    rfl
  · rfl

/-! ## Normal form of `do_mmap` -/

/-- The body of `do_mmap` with its tests written on the flag word passed in:
the advisory bits do not take part in any test. -/
theorem do_mmap_eq (m : mm) (host : Option (Nat × Nat)) (addr len : Nat)
    (n_prot l_prot : Int) (l_flags : Nat) (fd offset : Int) :
    do_mmap m host addr len n_prot l_prot l_flags fd offset =
      if addr % 4096 ≠ 0 then .error (.assert_failed, m, [])
      else if l_flags &&& LINUX_MAP_PRIVATE = 0 ∧ l_flags &&& LINUX_MAP_ANON = 0 then
        .ok (-LINUX_EINVAL, m, [])
      else if and_not l_flags (ADVISORY_MASK ||| RECOGNIZED_MASK) ≠ 0 then
        .error (.exit_unsupported_flags, m, [])
      else if l_flags &&& LINUX_MAP_ANON = 0 then
        .ok (-LINUX_EINVAL,
          (if l_flags &&& LINUX_MAP_FIXED = 0 then
            alloc_region m (roundup len PAGE_SIZE_4KB) else (addr, m)).2, [])
      else
        match host with
        | none =>
          .error (.panic_mmap_failed,
            (if l_flags &&& LINUX_MAP_FIXED = 0 then
              alloc_region m (roundup len PAGE_SIZE_4KB) else (addr, m)).2,
            [Event.platform_map_mem (roundup len PAGE_SIZE_4KB) n_prot (cleared_flags l_flags)])
        | some (ptr, handle) =>
          match do_munmap
              (if l_flags &&& LINUX_MAP_FIXED = 0 then
                alloc_region m (roundup len PAGE_SIZE_4KB) else (addr, m)).2
              (if l_flags &&& LINUX_MAP_FIXED = 0 then
                alloc_region m (roundup len PAGE_SIZE_4KB) else (addr, m)).1
              (roundup len PAGE_SIZE_4KB) with
          | none =>
            .error (.loop_bound,
              (if l_flags &&& LINUX_MAP_FIXED = 0 then
                alloc_region m (roundup len PAGE_SIZE_4KB) else (addr, m)).2,
              [Event.platform_map_mem (roundup len PAGE_SIZE_4KB) n_prot (cleared_flags l_flags)])
          | some (_, m2, calls) =>
            match record_region m2 handle ptr
                (if l_flags &&& LINUX_MAP_FIXED = 0 then
                  alloc_region m (roundup len PAGE_SIZE_4KB) else (addr, m)).1
                (roundup len PAGE_SIZE_4KB) l_prot (cleared_flags l_flags) (-1) 0 with
            | none =>
              .error (.panic_overlapping, m2,
                Event.platform_map_mem (roundup len PAGE_SIZE_4KB) n_prot
                  (cleared_flags l_flags) :: calls)
            | some m3 =>
              .ok ((((if l_flags &&& LINUX_MAP_FIXED = 0 then
                  alloc_region m (roundup len PAGE_SIZE_4KB) else (addr, m)).1 : Nat) : Int), m3,
                Event.platform_map_mem (roundup len PAGE_SIZE_4KB) n_prot
                    (cleared_flags l_flags) :: calls ++
                  [Event.vm_mmap
                    (if l_flags &&& LINUX_MAP_FIXED = 0 then
                      alloc_region m (roundup len PAGE_SIZE_4KB) else (addr, m)).1
                    (roundup len PAGE_SIZE_4KB) l_prot ptr]) := by
  have e3 : and_not (cleared_flags l_flags)
      (LINUX_MAP_SHARED ||| LINUX_MAP_PRIVATE ||| LINUX_MAP_FIXED ||| LINUX_MAP_ANON)
      = and_not l_flags (ADVISORY_MASK ||| RECOGNIZED_MASK) := by
    rw [cleared_flags_eq, and_not_and_not]
    rfl
  have e4 : cleared_flags l_flags &&& LINUX_MAP_ANON = l_flags &&& LINUX_MAP_ANON :=
    cleared_flags_and l_flags _ (by decide)
  have e5 : cleared_flags l_flags &&& LINUX_MAP_FIXED = l_flags &&& LINUX_MAP_FIXED :=
    cleared_flags_and l_flags _ (by decide)
  unfold cleared_flags at e3 e4 e5
  unfold do_mmap
  rw [and_0xfff]
  by_cases h1 : addr % 4096 ≠ 0
  · rw [if_pos h1, if_pos h1]
  rw [if_neg h1, if_neg h1]
  by_cases h2 : l_flags &&& LINUX_MAP_PRIVATE = 0 ∧ l_flags &&& LINUX_MAP_ANON = 0
  · rw [if_pos h2, if_pos h2]
  rw [if_neg h2, if_neg h2]
  simp only [e3, e4, e5]
  by_cases h3 : and_not l_flags (ADVISORY_MASK ||| RECOGNIZED_MASK) ≠ 0
  · rw [if_pos h3, if_pos h3]
  rw [if_neg h3, if_neg h3]
  by_cases h4 : l_flags &&& LINUX_MAP_ANON = 0
  · rw [if_pos h4, if_pos h4]
  rw [if_neg h4, if_neg h4]
  simp only [if_pos h4]
  rfl

theorem and_not_or_self (f x y : Nat) : and_not (and_not f x) (x ||| y) = and_not f (x ||| y) := by
  apply Nat.eq_of_testBit_eq
  intro i
  simp only [and_not, Nat.testBit_xor, Nat.testBit_and, Nat.testBit_or]
  cases f.testBit i <;> cases x.testBit i <;> cases y.testBit i <;> rfl

theorem and_not_idem (f x : Nat) : and_not (and_not f x) x = and_not f x := by
  apply Nat.eq_of_testBit_eq
  intro i
  simp only [and_not, Nat.testBit_xor, Nat.testBit_and]
  cases f.testBit i <;> cases x.testBit i <;> rfl

/-- C14, advisory flags have no effect: for every state and every request,
`do_mmap` with flags `f` and `do_mmap` with `f` with the bits
`LINUX_MAP_DENYWRITE`, `LINUX_MAP_EXECUTABLE`, `LINUX_MAP_NORESERVE` and
`LINUX_MAP_STACK` cleared have the same outcome: the same return value,
resulting state and external calls (with the flags recorded in the region and
passed to the host allocator), or the same fatal exit. -/
theorem advisory_flags_no_effect (m : mm) (host : Option (Nat × Nat)) (addr len : Nat)
    (n_prot l_prot : Int) (l_flags : Nat) (fd offset : Int) :
    do_mmap m host addr len n_prot l_prot l_flags fd offset =
      do_mmap m host addr len n_prot l_prot (and_not l_flags ADVISORY_MASK) fd offset := by
  have e1 : and_not l_flags ADVISORY_MASK &&& LINUX_MAP_PRIVATE = l_flags &&& LINUX_MAP_PRIVATE :=
    and_not_and_of_disjoint _ _ _ (by decide)
  have e2 : and_not l_flags ADVISORY_MASK &&& LINUX_MAP_ANON = l_flags &&& LINUX_MAP_ANON :=
    and_not_and_of_disjoint _ _ _ (by decide)
  have e3 : and_not l_flags ADVISORY_MASK &&& LINUX_MAP_FIXED = l_flags &&& LINUX_MAP_FIXED :=
    and_not_and_of_disjoint _ _ _ (by decide)
  have e4 : and_not (and_not l_flags ADVISORY_MASK) (ADVISORY_MASK ||| RECOGNIZED_MASK) =
      and_not l_flags (ADVISORY_MASK ||| RECOGNIZED_MASK) := and_not_or_self _ _ _
  have e5 : cleared_flags (and_not l_flags ADVISORY_MASK) = cleared_flags l_flags := by
    rw [cleared_flags_eq, cleared_flags_eq, and_not_idem]
  rw [do_mmap_eq, do_mmap_eq m host addr len n_prot l_prot (and_not l_flags ADVISORY_MASK),
    e1, e2, e3, e4, e5]

/-- C16, file-backed requests are refused, not fatal: for every state, every
answer of the host allocator and every request with a page-aligned `addr`
whose flags hold only recognized or advisory bits and not `LINUX_MAP_ANON`,
`do_mmap` returns `-LINUX_EINVAL`, makes no external call and leaves the region
directory unchanged. -/
theorem file_backed_refused (m : mm) (host : Option (Nat × Nat)) (addr len : Nat)
    (n_prot l_prot : Int) (l_flags : Nat) (fd offset : Int) (haddr : addr % 4096 = 0)
    (hrec : and_not l_flags (ADVISORY_MASK ||| RECOGNIZED_MASK) = 0)
    (hfile : l_flags &&& LINUX_MAP_ANON = 0) :
    ∃ m1, do_mmap m host addr len n_prot l_prot l_flags fd offset
        = .ok (-LINUX_EINVAL, m1, []) ∧
      m1.mm_regions = m.mm_regions := by
  rw [do_mmap_eq, if_neg (not_not.mpr haddr)]
  by_cases hp : l_flags &&& LINUX_MAP_PRIVATE = 0
  · rw [if_pos ⟨hp, hfile⟩]
    exact ⟨m, rfl, rfl⟩
  · rw [if_neg (fun h => hp h.1), if_neg (not_not.mpr hrec), if_pos hfile]
    refine ⟨_, rfl, ?_⟩
    by_cases hf : l_flags &&& LINUX_MAP_FIXED = 0
    · rw [if_pos hf, alloc_region_snd]
    · rw [if_neg hf]

/-- Witness of C16: a private file mapping request on `two_regions`, with a
host allocator that would succeed. -/
theorem file_backed_refused_witness :
    0x5000 % 4096 = 0 ∧
    and_not LINUX_MAP_PRIVATE (ADVISORY_MASK ||| RECOGNIZED_MASK) = 0 ∧
    LINUX_MAP_PRIVATE &&& LINUX_MAP_ANON = 0 ∧
    ∃ m1, do_mmap two_regions (some (0xb00000, 7)) 0x5000 0x1000 3 3 LINUX_MAP_PRIVATE 4 0
        = .ok (-LINUX_EINVAL, m1, []) ∧
      m1.mm_regions = two_regions.mm_regions :=
  ⟨by decide, by decide, by decide,
    file_backed_refused two_regions (some (0xb00000, 7)) 0x5000 0x1000 3 3 LINUX_MAP_PRIVATE 4 0
      (by decide) (by decide) (by decide)⟩

/-- C18 as stated fails: a fixed request at the unaligned address `0x1001`
does not return `-LINUX_EINVAL` (nor anything else); the assertion fails. -/
theorem unaligned_fixed_counterexample :
    ¬ ∃ m1 calls,
      do_mmap two_regions (some (0xb00000, 7)) 0x1001 0x1000 3 3
          (LINUX_MAP_FIXED ||| LINUX_MAP_ANON ||| LINUX_MAP_PRIVATE) (-1) 0
        = .ok (-LINUX_EINVAL, m1, calls) := by
  rintro ⟨m1, calls, h⟩
  have e : do_mmap two_regions (some (0xb00000, 7)) 0x1001 0x1000 3 3
      (LINUX_MAP_FIXED ||| LINUX_MAP_ANON ||| LINUX_MAP_PRIVATE) (-1) 0
      = .error (.assert_failed, two_regions, []) := by rfl
  rw [e] at h
  cases h

/-- C18 amended: for every state and every request whose `addr` is not a
multiple of 4096 (with `FIXED` set or not), `do_mmap` fails the assertion
`(addr & 0xfff) == 0`: the process aborts and no value is returned; the state
is the one before the call and no external call has been made. -/
theorem unaligned_addr_aborts (m : mm) (host : Option (Nat × Nat)) (addr len : Nat)
    (n_prot l_prot : Int) (l_flags : Nat) (fd offset : Int) (haddr : addr % 4096 ≠ 0) :
    do_mmap m host addr len n_prot l_prot l_flags fd offset =
      .error (.assert_failed, m, []) := by
  rw [do_mmap_eq, if_pos haddr]

/-- Witness of C18 amended at `addr = 0x1001` with `FIXED` set. -/
theorem unaligned_addr_aborts_witness :
    0x1001 % 4096 ≠ 0 ∧
    do_mmap two_regions (some (0xb00000, 7)) 0x1001 0x1000 3 3
        (LINUX_MAP_FIXED ||| LINUX_MAP_ANON ||| LINUX_MAP_PRIVATE) (-1) 0
      = .error (.assert_failed, two_regions, []) :=
  ⟨by decide, unaligned_addr_aborts two_regions (some (0xb00000, 7)) 0x1001 0x1000 3 3
    (LINUX_MAP_FIXED ||| LINUX_MAP_ANON ||| LINUX_MAP_PRIVATE) (-1) 0 (by decide)⟩

/-- C13 as stated fails: the flag word `0x100` holds a bit outside the
recognized and advisory sets, and `do_mmap` returns `-LINUX_EINVAL` instead of
exiting, because neither `PRIVATE` nor `ANON` is set. -/
theorem unrecognized_flags_counterexample :
    and_not 0x100 (ADVISORY_MASK ||| RECOGNIZED_MASK) ≠ 0 ∧
    do_mmap two_regions (some (0xb00000, 7)) 0x1000 0x1000 3 3 0x100 (-1) 0
      = .ok (-LINUX_EINVAL, two_regions, []) :=
  ⟨by decide, by rfl⟩

/-- C13 amended: for every state, every answer of the host allocator and every
request with a page-aligned `addr` whose flags hold a bit outside the
recognized and advisory sets, `do_mmap` exits when `PRIVATE` or `ANON` is set,
whatever the other flag bits are and whatever the host allocator would answer;
when the process exits the state is the one before the call (the cursor has
not advanced and the directory has not changed) and no external call, so no
host allocation, has been made.  When neither `PRIVATE` nor `ANON` is set the
call returns `-LINUX_EINVAL` with the state unchanged instead. -/
theorem unrecognized_flags_exit (m : mm) (host : Option (Nat × Nat)) (addr len : Nat)
    (n_prot l_prot : Int) (l_flags : Nat) (fd offset : Int) (haddr : addr % 4096 = 0)
    (hunrec : and_not l_flags (ADVISORY_MASK ||| RECOGNIZED_MASK) ≠ 0) :
    ((l_flags &&& LINUX_MAP_PRIVATE ≠ 0 ∨ l_flags &&& LINUX_MAP_ANON ≠ 0) →
      do_mmap m host addr len n_prot l_prot l_flags fd offset
        = .error (.exit_unsupported_flags, m, [])) ∧
    ((l_flags &&& LINUX_MAP_PRIVATE = 0 ∧ l_flags &&& LINUX_MAP_ANON = 0) →
      do_mmap m host addr len n_prot l_prot l_flags fd offset
        = .ok (-LINUX_EINVAL, m, [])) := by
  rw [do_mmap_eq, if_neg (not_not.mpr haddr)]
  constructor
  · intro hpa
    have h2 : ¬ (l_flags &&& LINUX_MAP_PRIVATE = 0 ∧ l_flags &&& LINUX_MAP_ANON = 0) := by
      rintro ⟨hp, ha⟩
      rcases hpa with h | h
      · exact h hp
      · exact h ha
    rw [if_neg h2, if_pos hunrec]
  · intro hpa
    rw [if_pos hpa]

/-- Witness of C13 amended: `ANON|PRIVATE` with the extra bit `0x100`, and a
host allocator that would fail. -/
theorem unrecognized_flags_exit_witness :
    0x1000 % 4096 = 0 ∧ and_not 0x122 (ADVISORY_MASK ||| RECOGNIZED_MASK) ≠ 0 ∧
    do_mmap two_regions none 0x1000 0x1000 3 3 0x122 (-1) 0
      = .error (.exit_unsupported_flags, two_regions, []) :=
  ⟨by decide, by decide,
    (unrecognized_flags_exit two_regions none 0x1000 0x1000 3 3 0x122 (-1) 0
      (by decide) (by decide)).1 (Or.inl (by decide))⟩

/-! ## The anonymous path of `do_mmap` -/

/-- The anonymous path of `do_mmap` when `FIXED` is not set: the address comes
from `alloc_region`, whatever `addr` (page-aligned) was requested. -/
theorem do_mmap_nonfixed_eq (m : mm) (ptr handle addr len : Nat) (n_prot l_prot : Int)
    (l_flags : Nat) (fd offset : Int) (hrange : m.current_mmap_top < 2 ^ 64)
    (haddr : addr % 4096 = 0)
    (hanon : l_flags &&& LINUX_MAP_ANON ≠ 0) (hnofixed : l_flags &&& LINUX_MAP_FIXED = 0)
    (hrec : and_not l_flags (ADVISORY_MASK ||| RECOGNIZED_MASK) = 0) :
    do_mmap m (some (ptr, handle)) addr len n_prot l_prot l_flags fd offset =
      match do_munmap
          { m with
            current_mmap_top := (m.current_mmap_top + roundup len PAGE_SIZE_4KB) % 2 ^ 64 }
          m.current_mmap_top (roundup len PAGE_SIZE_4KB) with
      | none =>
        .error (.loop_bound,
          { m with
            current_mmap_top := (m.current_mmap_top + roundup len PAGE_SIZE_4KB) % 2 ^ 64 },
          [Event.platform_map_mem (roundup len PAGE_SIZE_4KB) n_prot (cleared_flags l_flags)])
      | some (_, m2, calls) =>
        match record_region m2 handle ptr m.current_mmap_top (roundup len PAGE_SIZE_4KB) l_prot
            (cleared_flags l_flags) (-1) 0 with
        | none =>
          .error (.panic_overlapping, m2,
            Event.platform_map_mem (roundup len PAGE_SIZE_4KB) n_prot (cleared_flags l_flags)
              :: calls)
        | some m3 =>
          .ok ((m.current_mmap_top : Int), m3,
            Event.platform_map_mem (roundup len PAGE_SIZE_4KB) n_prot (cleared_flags l_flags)
              :: calls ++
                [Event.vm_mmap m.current_mmap_top (roundup len PAGE_SIZE_4KB) l_prot ptr]) := by
  have h2 : ¬ (l_flags &&& LINUX_MAP_PRIVATE = 0 ∧ l_flags &&& LINUX_MAP_ANON = 0) :=
    fun h => hanon h.2
  rw [do_mmap_eq, if_neg (not_not.mpr haddr), if_neg h2, if_neg (not_not.mpr hrec),
    if_neg hanon]
  simp only [if_pos hnofixed, alloc_region_eq _ _ hrange, roundup_roundup]

/-- The anonymous non-fixed path of `do_mmap` when the unmapping of the chosen
range and the recording of the new region both succeed; `R`, `top1` and `F` are
the rounded length, the new cursor and the flags after the advisory bits are
cleared. -/
theorem do_mmap_nonfixed_ok (m m2 m3 : mm) (ptr handle addr len : Nat) (n_prot l_prot : Int)
    (l_flags : Nat) (fd offset : Int) (v : Int) (calls : List Event) (R top1 F : Nat)
    (hrange : m.current_mmap_top < 2 ^ 64) (haddr : addr % 4096 = 0)
    (hanon : l_flags &&& LINUX_MAP_ANON ≠ 0) (hnofixed : l_flags &&& LINUX_MAP_FIXED = 0)
    (hrec : and_not l_flags (ADVISORY_MASK ||| RECOGNIZED_MASK) = 0)
    (hR : roundup len PAGE_SIZE_4KB = R) (htop : (m.current_mmap_top + R) % 2 ^ 64 = top1)
    (hF : cleared_flags l_flags = F)
    (hmun : do_munmap { m with current_mmap_top := top1 } m.current_mmap_top R
      = some (v, m2, calls))
    (hrr : record_region m2 handle ptr m.current_mmap_top R l_prot F (-1) 0 = some m3) :
    do_mmap m (some (ptr, handle)) addr len n_prot l_prot l_flags fd offset =
      .ok ((m.current_mmap_top : Int), m3,
        Event.platform_map_mem R n_prot F :: calls ++
          [Event.vm_mmap m.current_mmap_top R l_prot ptr]) := by
  subst hR htop hF
  rw [do_mmap_nonfixed_eq m ptr handle addr len n_prot l_prot l_flags fd offset hrange haddr
    hanon hnofixed hrec, hmun]
  simp only [hrr]

/-- The call `do_munmap` with length `0` changes nothing and makes no call. -/
theorem do_munmap_zero (m : mm) (g : Nat) : ∃ v, do_munmap m g 0 = some (v, m, []) := by
  by_cases hg : g % 4096 = 0
  · exact ⟨-LINUX_ENOMEM, do_munmap_no_overlap m g 0 hg (by
      intro r _ hc
      rw [region_compare_key_zero] at hc
      have h0 : roundup 0 PAGE_SIZE_4KB = 0 := by decide
      omega)⟩
  · exact ⟨-LINUX_EINVAL, do_munmap_unaligned m g 0 hg⟩

/-- C15 as stated fails: `do_munmap` with `size = 0` returns `-LINUX_ENOMEM`,
not `-LINUX_EINVAL`; `do_mmap` with `len = 0` on the initial state returns the
address `0xc0000000` and records a region of length `0`. -/
theorem zero_length_counterexample :
    do_munmap two_regions 0x2000 0 = some (-LINUX_ENOMEM, two_regions, []) ∧
    -LINUX_ENOMEM ≠ -LINUX_EINVAL ∧
    do_mmap initial_state (some (0xb00000, 7)) 0 0 3 3
        (LINUX_MAP_ANON ||| LINUX_MAP_PRIVATE) (-1) 0
      = .ok (0xc0000000,
          { mm_regions := [mm_region.mk 0xb00000 7 0xc0000000 0 3 0x22 (-1) 0],
            current_mmap_top := 0xc0000000 },
          [Event.platform_map_mem 0 3 0x22, Event.vm_mmap 0xc0000000 0 3 0xb00000]) :=
  ⟨by rfl, by decide, by rfl⟩

/-- C15 amended: zero length is not rejected.  For every state (the cursor
being a 64-bit value) and every page-aligned address, `do_munmap` with
`size = 0` returns `-LINUX_ENOMEM` and leaves the state unchanged; `do_mmap`
with `len = 0`, `ANON` set, no bit outside the recognized and advisory sets and
a successful host allocation returns the mapping address (the cursor, or `addr`
when `FIXED` is set), leaves the cursor where it was and records a region of
length `0`. -/
theorem zero_length_not_rejected (m : mm) (ptr handle addr : Nat) (n_prot l_prot : Int)
    (l_flags : Nat) (fd offset : Int) (hrange : m.current_mmap_top < 2 ^ 64)
    (haddr : addr % 4096 = 0)
    (hanon : l_flags &&& LINUX_MAP_ANON ≠ 0)
    (hrec : and_not l_flags (ADVISORY_MASK ||| RECOGNIZED_MASK) = 0) :
    do_munmap m addr 0 = some (-LINUX_ENOMEM, m, []) ∧
    do_mmap m (some (ptr, handle)) addr 0 n_prot l_prot l_flags fd offset =
      .ok (((if l_flags &&& LINUX_MAP_FIXED = 0 then m.current_mmap_top else addr : Nat) : Int),
        { m with mm_regions :=
          (insert_ordered
            (mm_region.mk ptr handle
              (if l_flags &&& LINUX_MAP_FIXED = 0 then m.current_mmap_top else addr)
              0 l_prot (cleared_flags l_flags) (-1) 0)
            m.mm_regions) },
        [Event.platform_map_mem 0 n_prot (cleared_flags l_flags),
         Event.vm_mmap (if l_flags &&& LINUX_MAP_FIXED = 0 then m.current_mmap_top else addr)
           0 l_prot ptr]) := by
  have h0 : roundup 0 PAGE_SIZE_4KB = 0 := by decide
  have hkey : ∀ (a : Nat) (r : mm_region), region_compare (region_key a 0) r ≠ 0 := by
    intro a r hc
    rw [region_compare_key_zero] at hc
    omega
  constructor
  · exact do_munmap_no_overlap m addr 0 haddr (by rw [h0]; exact fun r _ => hkey addr r)
  · have h2 : ¬ (l_flags &&& LINUX_MAP_PRIVATE = 0 ∧ l_flags &&& LINUX_MAP_ANON = 0) :=
      fun h => hanon h.2
    have ham : (if l_flags &&& LINUX_MAP_FIXED = 0 then
        alloc_region m (roundup 0 PAGE_SIZE_4KB) else (addr, m)) =
        (if l_flags &&& LINUX_MAP_FIXED = 0 then m.current_mmap_top else addr, m) := by
      by_cases hf : l_flags &&& LINUX_MAP_FIXED = 0
      · rw [if_pos hf, if_pos hf, alloc_region_eq _ _ hrange, h0, h0, Nat.add_zero,
          Nat.mod_eq_of_lt hrange]
      · rw [if_neg hf, if_neg hf]
    rw [do_mmap_eq, if_neg (not_not.mpr haddr), if_neg h2, if_neg (not_not.mpr hrec),
      if_neg hanon, ham, h0]
    obtain ⟨v, hv⟩ := do_munmap_zero m
      (if l_flags &&& LINUX_MAP_FIXED = 0 then m.current_mmap_top else addr)
    simp only [hv]
    rw [record_region_ok m handle ptr _ 0 l_prot (cleared_flags l_flags) (-1) 0
      (fun r _ => hkey _ r)]
    rfl

/-- Witness of C15 amended on `two_regions`: a fixed mapping of length `0` at
`0x2000`, inside the first region. -/
theorem zero_length_not_rejected_witness :
    0x2000 % 4096 = 0 ∧
    do_munmap two_regions 0x2000 0 = some (-LINUX_ENOMEM, two_regions, []) ∧
    do_mmap two_regions (some (0xb00000, 7)) 0x2000 0 3 3 0x32 (-1) 0 =
      .ok (0x2000,
        { mm_regions :=
            [mm_region.mk 0x700000 1 0x1000 0x3000 3 0x32 (-1) 0,
             mm_region.mk 0xb00000 7 0x2000 0 3 0x32 (-1) 0,
             mm_region.mk 0x900000 2 0x5000 0x2000 1 0x32 (-1) 0],
          current_mmap_top := 0xc0000000 },
        [Event.platform_map_mem 0 3 0x32, Event.vm_mmap 0x2000 0 3 0xb00000]) :=
  ⟨by decide,
    (zero_length_not_rejected two_regions 0xb00000 7 0x2000 3 3 0x32 (-1) 0
      (by decide) (by decide) (by decide) (by decide)).1,
    by rfl⟩

/-! ## The cursor along a run -/

theorem is_nonfixed_anon_iff (l_flags : Nat) :
    is_nonfixed_anon l_flags = true ↔
      (l_flags &&& LINUX_MAP_FIXED = 0 ∧ l_flags &&& LINUX_MAP_ANON ≠ 0) := by
  unfold is_nonfixed_anon
  simp

/-- The result of `alloc_region` when the cursor does not go round `2^64`. -/
theorem alloc_region_in_range (m : mm) (len : Nat)
    (h : m.current_mmap_top + roundup len PAGE_SIZE_4KB < 2 ^ 64) :
    alloc_region m len =
      (m.current_mmap_top,
       { m with current_mmap_top := m.current_mmap_top + roundup len PAGE_SIZE_4KB }) := by
  rw [alloc_region_eq m len (by omega), Nat.mod_eq_of_lt h]

/-- A returning `do_mmap` that does not take the cursor round `2^64` never moves
the cursor down; a non-fixed anonymous one returns the old cursor and moves it
up by the rounded length. -/
theorem do_mmap_cursor (m : mm) (host : Option (Nat × Nat)) (addr len : Nat)
    (n_prot l_prot : Int) (l_flags : Nat) (fd offset : Int) (res : Int × mm × List Event)
    (h : do_mmap m host addr len n_prot l_prot l_flags fd offset = .ok res)
    (hin : l_flags &&& LINUX_MAP_FIXED ≠ 0 ∨
      (l_flags &&& LINUX_MAP_PRIVATE = 0 ∧ l_flags &&& LINUX_MAP_ANON = 0) ∨
      m.current_mmap_top + roundup len PAGE_SIZE_4KB < 2 ^ 64) :
    m.current_mmap_top ≤ res.2.1.current_mmap_top ∧
    (is_nonfixed_anon l_flags = true →
      res.1 = (m.current_mmap_top : Int) ∧
      res.2.1.current_mmap_top = m.current_mmap_top + roundup len PAGE_SIZE_4KB) := by
  rw [is_nonfixed_anon_iff]
  rw [do_mmap_eq] at h
  by_cases h1 : addr % 4096 ≠ 0
  · rw [if_pos h1] at h; cases h
  rw [if_neg h1] at h
  by_cases h2 : l_flags &&& LINUX_MAP_PRIVATE = 0 ∧ l_flags &&& LINUX_MAP_ANON = 0
  · rw [if_pos h2] at h
    cases h
    exact ⟨Nat.le_refl _, fun hna => absurd h2.2 hna.2⟩
  rw [if_neg h2] at h
  by_cases h3 : and_not l_flags (ADVISORY_MASK ||| RECOGNIZED_MASK) ≠ 0
  · rw [if_pos h3] at h; cases h
  rw [if_neg h3] at h
  have ham : m.current_mmap_top ≤ (if l_flags &&& LINUX_MAP_FIXED = 0 then
      alloc_region m (roundup len PAGE_SIZE_4KB) else (addr, m)).2.current_mmap_top ∧
      (l_flags &&& LINUX_MAP_FIXED = 0 →
        (if l_flags &&& LINUX_MAP_FIXED = 0 then
          alloc_region m (roundup len PAGE_SIZE_4KB) else (addr, m)).1 = m.current_mmap_top ∧
        (if l_flags &&& LINUX_MAP_FIXED = 0 then
          alloc_region m (roundup len PAGE_SIZE_4KB) else (addr, m)).2.current_mmap_top =
          m.current_mmap_top + roundup len PAGE_SIZE_4KB) := by
    by_cases hf : l_flags &&& LINUX_MAP_FIXED = 0
    · have hlt : m.current_mmap_top + roundup len PAGE_SIZE_4KB < 2 ^ 64 := by
        rcases hin with hin | hin | hin
        · exact absurd hf hin
        · exact absurd hin h2
        · exact hin
      rw [if_pos hf, alloc_region_in_range _ _ (by rw [roundup_roundup]; exact hlt),
        roundup_roundup]
      exact ⟨Nat.le_add_right _ _, fun _ => ⟨rfl, rfl⟩⟩
    · rw [if_neg hf]
      exact ⟨Nat.le_refl _, fun hf2 => absurd hf2 hf⟩
  generalize (if l_flags &&& LINUX_MAP_FIXED = 0 then
    alloc_region m (roundup len PAGE_SIZE_4KB) else (addr, m)) = am at h ham
  by_cases h4 : l_flags &&& LINUX_MAP_ANON = 0
  · rw [if_pos h4] at h
    cases h
    exact ⟨ham.1, fun hna => absurd h4 hna.2⟩
  rw [if_neg h4] at h
  cases host with
  | none => cases h
  | some ph =>
    obtain ⟨ptr, handle⟩ := ph
    simp only at h
    split at h
    · cases h
    · rename_i v m2 calls hmun
      split at h
      · cases h
      · rename_i m3 hrec
        cases h
        have hc2 := (do_munmap_trimmed _ _ _ _ _ _ hmun).1
        have hc3 := (record_region_some _ _ _ _ _ _ _ _ _ _ hrec).1
        have hc4 : m3.current_mmap_top = m2.current_mmap_top := by rw [hc3]
        simp only
        rw [hc4, hc2]
        refine ⟨ham.1, fun hna => ?_⟩
        obtain ⟨e1, e2⟩ := ham.2 hna.1
        exact ⟨by rw [e1], e2⟩

/-- Along a run in which the cursor does not go round `2^64`, every returned
range of a non-fixed anonymous mapping starts at or above the cursor of the
state the run starts from, and ends at or below the start of every range
returned later. -/
theorem returned_ranges_ordered :
    ∀ (calls : List Call) (m : mm) (l : List (Int × Nat)),
      returned_ranges m calls = some l → cursor_in_range m calls = true →
      (∀ p ∈ l, (m.current_mmap_top : Int) ≤ p.1) ∧
      l.Pairwise (fun p q => p.1 + (p.2 : Int) ≤ q.1)
  | [], m, l, h, _ => by
    simp only [returned_ranges, Option.some.injEq] at h
    subst h
    exact ⟨fun p hp => absurd hp (List.not_mem_nil p), List.Pairwise.nil⟩
  | Call.munmap gaddr size :: cs, m, l, h, hin => by
    simp only [returned_ranges] at h
    simp only [cursor_in_range] at hin
    obtain ⟨res, hres⟩ := do_munmap_returns m gaddr size
    rw [hres] at h hin
    simp only [Option.some_bind] at h
    simp only at hin
    have hcur := (do_munmap_trimmed m res.2.1 gaddr size res.1 res.2.2 hres).1
    obtain ⟨ih1, ih2⟩ := returned_ranges_ordered cs res.2.1 l h hin
    rw [hcur] at ih1
    exact ⟨ih1, ih2⟩
  | Call.mmap host addr len n_prot l_prot l_flags fd offset :: cs, m, l, h, hin => by
    simp only [returned_ranges] at h
    simp only [cursor_in_range, Bool.and_eq_true, Bool.or_eq_true, decide_eq_true_eq] at hin
    cases hres : do_mmap m host addr len n_prot l_prot l_flags fd offset with
    | error e => rw [hres] at h; cases h
    | ok res =>
      rw [hres] at h hin
      simp only at h hin
      obtain ⟨hmono, hnew⟩ := do_mmap_cursor m host addr len n_prot l_prot l_flags fd offset
        res hres (by
          rcases hin.1 with (h1 | h1) | h1
          · exact Or.inl h1
          · exact Or.inr (Or.inl h1)
          · exact Or.inr (Or.inr h1))
      cases hrest : returned_ranges res.2.1 cs with
      | none => rw [hrest] at h; cases h
      | some l1 =>
        rw [hrest] at h
        simp only [Option.map_some', Option.some.injEq] at h
        obtain ⟨ih1, ih2⟩ := returned_ranges_ordered cs res.2.1 l1 hrest hin.2
        have ih1m : ∀ p ∈ l1, (m.current_mmap_top : Int) ≤ p.1 := by
          intro p hp
          have := ih1 p hp
          omega
        by_cases hna : is_nonfixed_anon l_flags = true
        · rw [if_pos hna] at h
          subst h
          obtain ⟨e1, e2⟩ := hnew hna
          refine ⟨?_, ?_⟩
          · intro p hp
            rcases List.mem_cons.mp hp with rfl | hp
            · simp only [e1, le_refl]
            · exact ih1m p hp
          · rw [List.pairwise_cons]
            refine ⟨?_, ih2⟩
            intro q hq
            have := ih1 q hq
            simp only [e1]
            omega
        · rw [if_neg hna] at h
          subst h
          exact ⟨ih1m, ih2⟩

/-- C11 as stated fails.  From the initial state, a non-fixed anonymous
mapping, then a private file mapping request of length `0xffffffffffffe000`
(refused with `-LINUX_EINVAL` after `alloc_region` has taken the cursor round
`2^64`), then a second non-fixed anonymous mapping: the two mappings return
`0xc0000000` and then `0xbffff000`, so the returned addresses decrease.  And two
non-fixed anonymous mappings of length `0` both return `0xc0000000`, so the
returned addresses are not strictly increasing without a wrap either. -/
theorem allocator_monotone_counterexample :
    (returned_ranges initial_state wrapping_calls
      = some [(0xc0000000, 0x1000), (0xbffff000, 0x1000)] ∧
    ¬ [((0xc0000000 : Int), (0x1000 : Nat)), (0xbffff000, 0x1000)].Pairwise
      (fun p q => p.1 < q.1)) ∧
    (returned_ranges initial_state zero_length_calls
      = some [(0xc0000000, 0), (0xc0000000, 0)] ∧
    ¬ [((0xc0000000 : Int), (0 : Nat)), (0xc0000000, 0)].Pairwise (fun p q => p.1 < q.1)) :=
  ⟨⟨by rfl, by decide⟩, ⟨by rfl, by decide⟩⟩

/-- C11 amended, allocator monotonicity: along any sequence of calls that all
return and in which no call takes the cursor round `2^64` (at every `do_mmap`
request that reaches `alloc_region`, refused ones included, the cursor plus the
rounded length is below `2^64`), the non-fixed anonymous `do_mmap` calls
(possibly interleaved with other calls) return ranges `[a, a + roundup L)` each
of which ends at or below every address returned later: the ranges returned do
not overlap and the addresses never decrease, and they strictly increase after
every call of positive length.  In particular two such calls of length 8192
from the initial state return `0xc0000000` and `0xc0002000`, with both regions
live. -/
theorem allocator_monotone (m : mm) (calls : List Call) (l : List (Int × Nat))
    (h : returned_ranges m calls = some l) (hin : cursor_in_range m calls = true) :
    l.Pairwise (fun p q => p.1 + (p.2 : Int) ≤ q.1) ∧
    l.Pairwise (fun p q => p.1 ≤ q.1) ∧
    l.Pairwise (fun p q => 0 < p.2 → p.1 < q.1) ∧
    (∀ (ptr1 handle1 ptr2 handle2 : Nat) (n_prot l_prot : Int),
      do_mmap initial_state (some (ptr1, handle1)) 0 8192 n_prot l_prot
          (LINUX_MAP_ANON ||| LINUX_MAP_PRIVATE) (-1) 0
        = .ok (0xc0000000,
            { mm_regions := [mm_region.mk ptr1 handle1 0xc0000000 0x2000 l_prot 0x22 (-1) 0],
              current_mmap_top := 0xc0002000 },
            [Event.platform_map_mem 0x2000 n_prot 0x22,
             Event.vm_mmap 0xc0000000 0x2000 l_prot ptr1]) ∧
      do_mmap
          { mm_regions := [mm_region.mk ptr1 handle1 0xc0000000 0x2000 l_prot 0x22 (-1) 0],
            current_mmap_top := 0xc0002000 }
          (some (ptr2, handle2)) 0 8192 n_prot l_prot
          (LINUX_MAP_ANON ||| LINUX_MAP_PRIVATE) (-1) 0
        = .ok (0xc0002000,
            { mm_regions :=
                [mm_region.mk ptr1 handle1 0xc0000000 0x2000 l_prot 0x22 (-1) 0,
                 mm_region.mk ptr2 handle2 0xc0002000 0x2000 l_prot 0x22 (-1) 0],
              current_mmap_top := 0xc0004000 },
            [Event.platform_map_mem 0x2000 n_prot 0x22,
             Event.vm_mmap 0xc0002000 0x2000 l_prot ptr2])) := by
  have hord := (returned_ranges_ordered calls m l h hin).2
  refine ⟨hord, hord.imp (fun hpq => by omega), hord.imp (fun hpq hpos => by omega), ?_⟩
  intro ptr1 handle1 ptr2 handle2 n_prot l_prot
  have hflags : cleared_flags (LINUX_MAP_ANON ||| LINUX_MAP_PRIVATE) = 0x22 := by decide
  have hlen : roundup 8192 PAGE_SIZE_4KB = 0x2000 := by decide
  have h1 : (0 : Nat) % 4096 = 0 := by decide
  have hr1 : initial_state.current_mmap_top < 2 ^ 64 := by decide
  have hr2 : (0xc0002000 : Nat) < 2 ^ 64 := by decide
  have htop : ((0xc0002000 : Nat) + 0x2000) % 2 ^ 64 = 0xc0004000 := by decide
  have h2 : (LINUX_MAP_ANON ||| LINUX_MAP_PRIVATE) &&& LINUX_MAP_ANON ≠ 0 := by decide
  have h3 : (LINUX_MAP_ANON ||| LINUX_MAP_PRIVATE) &&& LINUX_MAP_FIXED = 0 := by decide
  have h4 : and_not (LINUX_MAP_ANON ||| LINUX_MAP_PRIVATE)
      (ADVISORY_MASK ||| RECOGNIZED_MASK) = 0 := by decide
  constructor
  · rw [do_mmap_nonfixed_eq initial_state ptr1 handle1 0 8192 n_prot l_prot _ (-1) 0 hr1 h1 h2
      h3 h4, hflags, hlen]
    rfl
  · have hno : ∀ r ∈ [mm_region.mk ptr1 handle1 0xc0000000 0x2000 l_prot 0x22 (-1) 0],
        region_compare (region_key 0xc0002000 (roundup 0x2000 PAGE_SIZE_4KB)) r ≠ 0 := by
      intro r hr hc
      rw [List.mem_singleton] at hr
      subst hr
      rw [region_compare_key_zero] at hc
      simp only at hc
      omega
    have hmun := do_munmap_no_overlap
      { mm_regions := [mm_region.mk ptr1 handle1 0xc0000000 0x2000 l_prot 0x22 (-1) 0],
        current_mmap_top := 0xc0004000 } 0xc0002000 0x2000 (by norm_num) hno
    have hrr : record_region
        { mm_regions := [mm_region.mk ptr1 handle1 0xc0000000 0x2000 l_prot 0x22 (-1) 0],
          current_mmap_top := 0xc0004000 } handle2 ptr2 0xc0002000 0x2000 l_prot 0x22 (-1) 0
        = some
          { mm_regions :=
              [mm_region.mk ptr1 handle1 0xc0000000 0x2000 l_prot 0x22 (-1) 0,
               mm_region.mk ptr2 handle2 0xc0002000 0x2000 l_prot 0x22 (-1) 0],
            current_mmap_top := 0xc0004000 } := by
      simp only [record_region, List.any, region_compare]
      norm_num [insert_ordered, region_compare]
    exact do_mmap_nonfixed_ok
      { mm_regions := [mm_region.mk ptr1 handle1 0xc0000000 0x2000 l_prot 0x22 (-1) 0],
        current_mmap_top := 0xc0002000 } _ _ ptr2 handle2 0 8192 n_prot l_prot _ (-1) 0 _ _
      0x2000 0xc0004000 0x22 hr2 h1 h2 h3 h4 hlen htop hflags hmun hrr

/-- Witness of C11 amended on a run of five calls, three of them non-fixed
anonymous mappings. -/
theorem allocator_monotone_witness :
    returned_ranges initial_state mixed_calls
      = some [(0xc0000000, 0x1000), (0xc0001000, 0x2000), (0xc0003000, 0x1000)] ∧
    [((0xc0000000 : Int), (0x1000 : Nat)), (0xc0001000, 0x2000), (0xc0003000, 0x1000)].Pairwise
      (fun p q => p.1 + (p.2 : Int) ≤ q.1) :=
  ⟨by rfl, (allocator_monotone initial_state mixed_calls _ (by rfl) (by rfl)).1⟩

/-! ## The release calls of `do_munmap` -/

theorem vm_ranges_append (a b : List Event) : vm_ranges (a ++ b) = vm_ranges a ++ vm_ranges b := by
  induction a with
  | nil => rfl
  | cons e a ih =>
    cases e <;> simp only [List.cons_append, vm_ranges] <;>
      first | exact ih | exact congrArg _ ih

theorem vm_ranges_released (g s : Nat) (r : mm_region) :
    vm_ranges (released g s r) =
      if region_compare (region_key g s) r = 0 then
        [(inside_base g r, inside_end g s r - inside_base g r)] else [] := by
  unfold released
  split_ifs <;> rfl

theorem mem_vm_ranges_released (g s : Nat) :
    ∀ (rs : List mm_region) (p : Nat × Nat),
      p ∈ vm_ranges (rs.flatMap (released g s)) ↔
        ∃ r ∈ rs, region_compare (region_key g s) r = 0 ∧
          p = (inside_base g r, inside_end g s r - inside_base g r)
  | [], p => by simp [vm_ranges]
  | r :: rs, p => by
    rw [List.flatMap_cons, vm_ranges_append, List.mem_append, mem_vm_ranges_released g s rs p,
      vm_ranges_released]
    constructor
    · rintro (h | ⟨q, hq, hc, hp⟩)
      · split_ifs at h with hc
        · exact ⟨r, List.mem_cons_self _ _, hc, List.mem_singleton.mp h⟩
        · exact absurd h (List.not_mem_nil p)
      · exact ⟨q, List.mem_cons_of_mem _ hq, hc, hp⟩
    · rintro ⟨q, hq, hc, hp⟩
      rcases List.mem_cons.mp hq with rfl | hq
      · left
        rw [if_pos hc]
        exact List.mem_singleton.mpr hp
      · exact Or.inr ⟨q, hq, hc, hp⟩

/-- The part of an overlapping region inside the range: where it lies. -/
theorem inside_bounds (g s : Nat) (r : mm_region)
    (hc : region_compare (region_key g s) r = 0) :
    g ≤ inside_base g r ∧ r.gaddr ≤ inside_base g r ∧
      inside_base g r < inside_end g s r ∧ inside_end g s r ≤ g + s ∧
      inside_end g s r ≤ r.gaddr + r.size := by
  rw [region_compare_key_zero] at hc
  unfold inside_base inside_end
  split_ifs <;> omega

theorem vm_ranges_released_ordered (g s : Nat) :
    ∀ (rs : List mm_region), regions_ordered rs →
      (vm_ranges (rs.flatMap (released g s))).Pairwise (fun p q => p.1 + p.2 ≤ q.1)
  | [], _ => by simp [vm_ranges]
  | r :: rs, hord => by
    unfold regions_ordered at hord
    rw [List.pairwise_cons] at hord
    rw [List.flatMap_cons, vm_ranges_append, List.pairwise_append]
    refine ⟨?_, vm_ranges_released_ordered g s rs hord.2, ?_⟩
    · rw [vm_ranges_released]
      split_ifs <;> simp
    · intro p hp q hq
      rw [vm_ranges_released] at hp
      split_ifs at hp with hc
      · rw [List.mem_singleton] at hp
        obtain ⟨r2, hr2, hc2, hq2⟩ := (mem_vm_ranges_released g s rs q).mp hq
        have h1 := inside_bounds g s r hc
        have h2 := inside_bounds g s r2 hc2
        have h3 := hord.1 r2 hr2
        subst hp hq2
        simp only
        omega
      · exact absurd hp (List.not_mem_nil p)

/-- In a list of regions in address order, an address covered by a region of
the list is translated by that region. -/
theorem translate_of_mem :
    ∀ (rs : List mm_region), regions_ordered rs → ∀ r ∈ rs, ∀ x, covers r x →
      translate rs x = some (r.haddr + (x - r.gaddr), r.prot, r.mm_flags)
  | [], _, r, hr, _, _ => absurd hr (List.not_mem_nil r)
  | r0 :: rs, hord, r, hr, x, hx => by
    unfold regions_ordered at hord
    rw [List.pairwise_cons] at hord
    rw [translate_cons]
    by_cases h0 : covers r0 x
    · rw [if_pos h0]
      rcases List.mem_cons.mp hr with rfl | hr
      · rfl
      · have := hord.1 r hr
        unfold covers at h0 hx
        omega
    · rw [if_neg h0]
      rcases List.mem_cons.mp hr with rfl | hr
      · exact absurd hx h0
      · exact translate_of_mem rs hord.2 r hr x hx

/-- C20, every removed piece is released exactly once: in a well-formed state,
when `do_munmap gaddr size` returns `0` its external calls are, for each region
that overlaps `[gaddr, gaddr + roundup size)` and in address order, one
`vm_munmap` and one `platform_unmap_mem` with the base and the length of the
part of that region inside the range, the host address that the base had
before the call and the handle of the region.  The guest ranges released are
pairwise disjoint, lie inside the range, and cover exactly the addresses of
the range that were mapped before the call. -/
theorem release_exactly_once (m m1 : mm) (gaddr size : Nat) (calls : List Event)
    (hwf : well_formed m) (hg : gaddr % 4096 = 0)
    (h : do_munmap m gaddr size = some (0, m1, calls)) :
    calls = m.mm_regions.flatMap (released gaddr (roundup size PAGE_SIZE_4KB)) ∧
    (∀ r ∈ m.mm_regions,
      region_compare (region_key gaddr (roundup size PAGE_SIZE_4KB)) r = 0 →
      released gaddr (roundup size PAGE_SIZE_4KB) r =
        [Event.vm_munmap (inside_base gaddr r)
           (inside_end gaddr (roundup size PAGE_SIZE_4KB) r - inside_base gaddr r),
         Event.platform_unmap_mem (r.haddr + (inside_base gaddr r - r.gaddr)) r.handle
           (inside_end gaddr (roundup size PAGE_SIZE_4KB) r - inside_base gaddr r)] ∧
      r.gaddr ≤ inside_base gaddr r ∧
      inside_base gaddr r < inside_end gaddr (roundup size PAGE_SIZE_4KB) r ∧
      inside_end gaddr (roundup size PAGE_SIZE_4KB) r ≤ r.gaddr + r.size ∧
      translate m.mm_regions (inside_base gaddr r) =
        some (r.haddr + (inside_base gaddr r - r.gaddr), r.prot, r.mm_flags)) ∧
    (∀ r ∈ m.mm_regions,
      region_compare (region_key gaddr (roundup size PAGE_SIZE_4KB)) r ≠ 0 →
      released gaddr (roundup size PAGE_SIZE_4KB) r = []) ∧
    (vm_ranges calls).Pairwise (fun p q => p.1 + p.2 ≤ q.1) ∧
    (∀ p ∈ vm_ranges calls,
      gaddr ≤ p.1 ∧ p.1 + p.2 ≤ gaddr + roundup size PAGE_SIZE_4KB) ∧
    (∀ x, gaddr ≤ x → x < gaddr + roundup size PAGE_SIZE_4KB →
      ((∃ r ∈ m.mm_regions, r.gaddr ≤ x ∧ x < r.gaddr + r.size) ↔
        ∃ p ∈ vm_ranges calls, p.1 ≤ x ∧ x < p.1 + p.2)) := by
  obtain ⟨v, _, _, heq⟩ := do_munmap_wf m gaddr size hwf hg
  rw [heq] at h
  have hcalls : calls = m.mm_regions.flatMap (released gaddr (roundup size PAGE_SIZE_4KB)) :=
    (congrArg (fun t => t.2.2) (Option.some.inj h)).symm
  subst hcalls
  refine ⟨rfl, ?_, ?_, vm_ranges_released_ordered gaddr _ _ hwf.1, ?_, ?_⟩
  · intro r hr hc
    have hb := inside_bounds gaddr _ r hc
    refine ⟨by unfold released; rw [if_pos hc], hb.2.1, hb.2.2.1, hb.2.2.2.2, ?_⟩
    exact translate_of_mem m.mm_regions hwf.1 r hr _ (by unfold covers; omega)
  · intro r _ hc
    exact released_of_no_overlap gaddr _ r hc
  · intro p hp
    obtain ⟨r, _, hc, rfl⟩ := (mem_vm_ranges_released gaddr _ _ p).mp hp
    have hb := inside_bounds gaddr _ r hc
    simp only
    omega
  · intro x hx1 hx2
    constructor
    · rintro ⟨r, hr, hcov⟩
      have hc : region_compare (region_key gaddr (roundup size PAGE_SIZE_4KB)) r = 0 :=
        (region_compare_key_zero_iff_covers _ _ _).mpr ⟨x, hcov, hx1, hx2⟩
      refine ⟨_, (mem_vm_ranges_released gaddr _ _ _).mpr ⟨r, hr, hc, rfl⟩, ?_⟩
      simp only [inside_base, inside_end]
      split_ifs <;> omega
    · rintro ⟨p, hp, hpx⟩
      obtain ⟨r, hr, hc, rfl⟩ := (mem_vm_ranges_released gaddr _ _ p).mp hp
      have hb := inside_bounds gaddr _ r hc
      simp only at hpx
      exact ⟨r, hr, by omega⟩

/-- Witness of C20 on `two_regions` and the range `[0x2000, 0x6000)`, which
cuts both regions: two pieces are released, `[0x2000, 0x4000)` and
`[0x5000, 0x6000)`. -/
theorem release_exactly_once_witness :
    well_formed two_regions ∧
    do_munmap two_regions 0x2000 0x4000 = some (0, two_regions_cleared,
      [Event.vm_munmap 0x2000 0x2000, Event.platform_unmap_mem 0x701000 1 0x2000,
       Event.vm_munmap 0x5000 0x1000, Event.platform_unmap_mem 0x900000 2 0x1000]) ∧
    (vm_ranges
      [Event.vm_munmap 0x2000 0x2000, Event.platform_unmap_mem 0x701000 1 0x2000,
       Event.vm_munmap 0x5000 0x1000, Event.platform_unmap_mem 0x900000 2 0x1000]).Pairwise
      (fun p q => p.1 + p.2 ≤ q.1) :=
  have hwf : well_formed two_regions := by
    refine ⟨?_, ?_, ?_⟩
    · simp [regions_ordered, two_regions]
    · simp [regions_aligned, two_regions]
    · simp [regions_positive, two_regions]
  ⟨hwf, by rfl,
    (release_exactly_once two_regions two_regions_cleared 0x2000 0x4000 _ hwf (by decide)
      (by rfl)).2.2.2.1⟩

/-! ## `list_cut_position` -/

theorem seg_append (h : list_heap) :
    ∀ (l1 : List Nat) (a e : Nat) (l2 : List Nat) (b : Nat),
      seg h a (l1 ++ e :: l2) b ↔ seg h a l1 e ∧ seg h e l2 b
  | [], a, e, l2, b => by
    show (h.next a = e ∧ h.prev e = a ∧ seg h e l2 b) ↔
      (h.next a = e ∧ h.prev e = a) ∧ seg h e l2 b
    constructor
    · rintro ⟨h1, h2, h3⟩; exact ⟨⟨h1, h2⟩, h3⟩
    · rintro ⟨⟨h1, h2⟩, h3⟩; exact ⟨h1, h2, h3⟩
  | x :: l1, a, e, l2, b => by
    show (h.next a = x ∧ h.prev x = a ∧ seg h x (l1 ++ e :: l2) b) ↔
      (h.next a = x ∧ h.prev x = a ∧ seg h x l1 e) ∧ seg h e l2 b
    rw [seg_append h l1 x e l2 b]
    constructor
    · rintro ⟨h1, h2, h3, h4⟩; exact ⟨⟨h1, h2, h3⟩, h4⟩
    · rintro ⟨⟨h1, h2, h3⟩, h4⟩; exact ⟨h1, h2, h3, h4⟩

/-- A segment only reads `next` at its start and inner nodes and `prev` at its
inner nodes and end. -/
theorem seg_congr (h h1 : list_heap) :
    ∀ (l : List Nat) (a b : Nat), (∀ x ∈ a :: l, h1.next x = h.next x) →
      (∀ x ∈ l ++ [b], h1.prev x = h.prev x) → seg h a l b → seg h1 a l b
  | [], a, b, hn, hp, hs => by
    simp only [seg] at hs ⊢
    rw [hn a (List.mem_cons_self _ _), hp b (by simp)]
    exact hs
  | e :: l, a, b, hn, hp, hs => by
    simp only [seg] at hs ⊢
    rw [hn a (List.mem_cons_self _ _), hp e (by simp)]
    refine ⟨hs.1, hs.2.1, seg_congr h h1 l e b ?_ ?_ hs.2.2⟩
    · intro x hx
      exact hn x (List.mem_cons_of_mem _ hx)
    · intro x hx
      exact hp x (by simp only [List.cons_append, List.mem_cons]; exact Or.inr hx)

theorem seg_prev_last (h : list_heap) :
    ∀ (l : List Nat) (a b : Nat), seg h a l b → h.prev b = l.getLastD a
  | [], a, b, hs => hs.2
  | e :: l, a, b, hs => by
    simp only [seg] at hs
    rw [List.getLastD_cons]
    exact seg_prev_last h l e b hs.2.2

theorem getLastD_mem : ∀ (l : List Nat) (d : Nat), l ≠ [] → l.getLastD d ∈ l
  | [], _, hne => absurd rfl hne
  | [e], d, _ => by simp
  | e :: e1 :: l, d, _ => by
    rw [List.getLastD_cons]
    exact List.mem_cons_of_mem _ (getLastD_mem (e1 :: l) e (by simp))

theorem cut_next (h : list_heap) (list head entry x : Nat) :
    (__list_cut_position h list head entry).next x =
      if x = head then h.next entry else if x = entry then list
      else if x = list then h.next head else h.next x := rfl

theorem cut_prev (h : list_heap) (list head entry x : Nat) :
    (__list_cut_position h list head entry).prev x =
      if x = h.next entry then head else if x = list then entry
      else if x = h.next head then list else h.prev x := by
  simp only [__list_cut_position, set_next, set_prev, if_true]

theorem init_next (h : list_heap) (list x : Nat) :
    (INIT_LIST_HEAD h list).next x = if x = list then list else h.next x := rfl

theorem init_prev (h : list_heap) (list x : Nat) :
    (INIT_LIST_HEAD h list).prev x = if x = list then list else h.prev x := rfl

theorem seg_next_mem (h : list_heap) :
    ∀ (l : List Nat) (a b : Nat), seg h a l b → h.next a ∈ l ++ [b]
  | [], a, b, hs => by
    rw [hs.1]
    exact List.mem_singleton.mpr rfl
  | e :: l, a, b, hs => by
    rw [hs.1]
    exact List.mem_cons_self _ _

theorem nodup_facts (head entry list : Nat) (pre post : List Nat)
    (hnd : (head :: (pre ++ entry :: post)).Nodup)
    (hlist : list ∉ head :: (pre ++ entry :: post)) :
    (head ≠ entry ∧ head ∉ pre ∧ head ∉ post) ∧ (entry ∉ pre ∧ entry ∉ post) ∧
      (pre.Nodup ∧ post.Nodup ∧ ∀ x ∈ pre, x ∉ post) ∧
      (list ≠ head ∧ list ≠ entry ∧ list ∉ pre ∧ list ∉ post) := by
  simp only [List.nodup_cons, List.nodup_append, List.mem_append, List.mem_cons, not_or,
    List.disjoint_cons_right, List.Disjoint] at hnd hlist
  obtain ⟨⟨h1, h2, h3⟩, h4, ⟨h5, h6⟩, h7⟩ := hnd
  obtain ⟨g1, g2, g3, g4⟩ := hlist
  exact ⟨⟨h2, h1, h3⟩, ⟨fun he => h7 he (Or.inl rfl), h5⟩,
    ⟨h4, h6, fun x hx hx2 => h7 hx (Or.inr hx2)⟩, g1, g3, g2, g4⟩

/-- The function `__list_cut_position` on a list `pre ++ entry :: post` and a
node `list` outside it. -/
theorem cut_is_list (h : list_heap) (list head entry : Nat) (pre post : List Nat)
    (hl : is_list h head (pre ++ entry :: post))
    (hlist : list ∉ head :: (pre ++ entry :: post)) :
    is_list (__list_cut_position h list head entry) list (pre ++ [entry]) ∧
      is_list (__list_cut_position h list head entry) head post := by
  obtain ⟨hnd, hs⟩ := hl
  obtain ⟨⟨hhe, hhpre, hhpost⟩, ⟨hepre, hepost⟩, ⟨hndpre, hndpost, hdisj⟩,
    hlh, hle, hlpre, hlpost⟩ := nodup_facts head entry list pre post hnd hlist
  rw [seg_append] at hs
  obtain ⟨s1, s2⟩ := hs
  have hF := seg_next_mem h pre head entry s1
  have hN := seg_next_mem h post entry head s2
  simp only [List.mem_append, List.mem_singleton] at hF hN
  have hNx : ∀ x, (x ∈ pre ∨ x = entry ∨ x = list) → x ≠ h.next entry := by
    intro x hx hxe
    rw [← hxe] at hN
    rcases hx with hx | hx | hx
    · rcases hN with hN | hN
      · exact hdisj x hx hN
      · exact hhpre (hN ▸ hx)
    · rcases hN with hN | hN
      · exact hepost (hx ▸ hN)
      · exact hhe (hN.symm.trans hx)
    · rcases hN with hN | hN
      · exact hlpost (hx ▸ hN)
      · exact hlh (hx.symm.trans hN)
  have hFx : ∀ x, (x ∈ post ∨ x = head ∨ x = list) → x ≠ h.next head := by
    intro x hx hxe
    rw [← hxe] at hF
    rcases hx with hx | hx | hx
    · rcases hF with hF | hF
      · exact hdisj x hF hx
      · exact hepost (hF ▸ hx)
    · rcases hF with hF | hF
      · exact hhpre (hx ▸ hF)
      · exact hhe (hx.symm.trans hF)
    · rcases hF with hF | hF
      · exact hlpre (hx ▸ hF)
      · exact hle (hx.symm.trans hF)
  refine ⟨⟨?_, ?_⟩, ⟨?_, ?_⟩⟩
  · simp only [List.nodup_cons, List.nodup_append, List.mem_append, List.mem_cons,
      List.mem_singleton, not_or, List.nodup_nil, List.not_mem_nil, or_false, and_true,
      List.disjoint_singleton]
    exact ⟨⟨hlpre, hle⟩, hndpre, not_false, hepre⟩
  · rw [seg_append]
    constructor
    · cases pre with
      | nil =>
        obtain ⟨a1, a2⟩ := s1
        constructor
        · rw [cut_next, if_neg hlh, if_neg hle, if_pos rfl]
          exact a1
        · rw [cut_prev, if_neg (hNx entry (Or.inr (Or.inl rfl))), if_neg (Ne.symm hle),
            if_pos a1.symm]
      | cons p ps =>
        obtain ⟨a1, a2, a3⟩ := s1
        have hp : p ∈ p :: ps := List.mem_cons_self _ _
        refine ⟨?_, ?_, ?_⟩
        · rw [cut_next, if_neg hlh, if_neg hle, if_pos rfl]
          exact a1
        · rw [cut_prev, if_neg (hNx p (Or.inl hp)), if_neg (ne_of_mem_of_not_mem hp hlpre),
            if_pos a1.symm]
        · refine seg_congr h _ ps p entry ?_ ?_ a3
          · intro x hx
            rw [cut_next, if_neg (ne_of_mem_of_not_mem hx hhpre),
              if_neg (ne_of_mem_of_not_mem hx hepre), if_neg (ne_of_mem_of_not_mem hx hlpre)]
          · intro x hx
            have hx1 : x ∈ ps ∨ x = entry := by
              simpa only [List.mem_append, List.mem_singleton] using hx
            have hxp : x ≠ p := by
              rcases hx1 with hx1 | hx1
              · intro e
                exact (List.nodup_cons.mp hndpre).1 (e ▸ hx1)
              · intro e
                exact hepre (hx1 ▸ e ▸ hp)
            have hxN : x ≠ h.next entry := by
              rcases hx1 with hx1 | hx1
              · exact hNx x (Or.inl (List.mem_cons_of_mem _ hx1))
              · exact hNx x (Or.inr (Or.inl hx1))
            have hxl : x ≠ list := by
              rcases hx1 with hx1 | hx1
              · intro e
                exact hlpre (e ▸ List.mem_cons_of_mem _ hx1)
              · intro e
                exact hle (e.symm.trans hx1)
            rw [cut_prev, if_neg hxN, if_neg hxl, if_neg (a1 ▸ hxp)]
    · constructor
      · rw [cut_next, if_neg (Ne.symm hhe), if_pos rfl]
      · rw [cut_prev, if_neg (hNx list (Or.inr (Or.inr rfl))), if_pos rfl]
  · exact List.nodup_cons.mpr ⟨hhpost, hndpost⟩
  · cases post with
    | nil =>
      obtain ⟨a1, a2⟩ := s2
      constructor
      · rw [cut_next, if_pos rfl]
        exact a1
      · rw [cut_prev, if_pos a1.symm]
    | cons q qs =>
      obtain ⟨a1, a2, a3⟩ := s2
      have hq : q ∈ q :: qs := List.mem_cons_self _ _
      refine ⟨?_, ?_, ?_⟩
      · rw [cut_next, if_pos rfl]
        exact a1
      · rw [cut_prev, if_pos a1.symm]
      · refine seg_congr h _ qs q head ?_ ?_ a3
        · intro x hx
          rw [cut_next, if_neg (ne_of_mem_of_not_mem hx hhpost),
            if_neg (ne_of_mem_of_not_mem hx hepost), if_neg (ne_of_mem_of_not_mem hx hlpost)]
        · intro x hx
          have hx1 : x ∈ qs ∨ x = head := by
            simpa only [List.mem_append, List.mem_singleton] using hx
          have hxq : x ≠ q := by
            rcases hx1 with hx1 | hx1
            · intro e
              exact (List.nodup_cons.mp hndpost).1 (e ▸ hx1)
            · intro e
              exact hhpost (hx1 ▸ e ▸ hq)
          have hxF : x ≠ h.next head := by
            rcases hx1 with hx1 | hx1
            · exact hFx x (Or.inl (List.mem_cons_of_mem _ hx1))
            · exact hFx x (Or.inr (Or.inl hx1))
          have hxl : x ≠ list := by
            rcases hx1 with hx1 | hx1
            · intro e
              exact hlpost (e ▸ List.mem_cons_of_mem _ hx1)
            · intro e
              exact hlh (e.symm.trans hx1)
          rw [cut_prev, if_neg (a1 ▸ hxq), if_neg hxl, if_neg hxF]

/-- On a list holding `entry`, `list_cut_position` reaches `__list_cut_position`. -/
theorem list_cut_position_on_list (h : list_heap) (list head entry : Nat) (pre post : List Nat)
    (hl : is_list h head (pre ++ entry :: post)) :
    list_cut_position h list head entry = __list_cut_position h list head entry := by
  obtain ⟨hnd, hs⟩ := hl
  simp only [List.nodup_cons, List.nodup_append, List.mem_append, List.mem_cons, not_or,
    List.disjoint_cons_right, List.Disjoint] at hnd
  obtain ⟨⟨hhpre, hhe, hhpost⟩, hndpre, ⟨hepost, hndpost⟩, hdisj⟩ := hnd
  rw [seg_append] at hs
  obtain ⟨s1, s2⟩ := hs
  have hF := seg_next_mem h pre head entry s1
  simp only [List.mem_append, List.mem_singleton] at hF
  have hemp : list_empty h head = false := by
    simp only [list_empty, beq_eq_false_iff_ne, ne_eq]
    intro e
    rw [e] at hF
    rcases hF with hF | hF
    · exact hhpre hF
    · exact hhe hF
  have hsing : (list_is_singular h head && (h.next head != entry && head != entry)) = false := by
    cases pre with
    | nil =>
      have e1 : h.next head = entry := s1.1
      simp only [e1, bne_self_eq_false, Bool.false_and, Bool.and_false]
    | cons p ps =>
      have e1 : h.next head = p := s1.1
      have e2 : h.prev head = post.getLastD entry := seg_prev_last h post entry head s2
      have hp : p ∈ p :: ps := List.mem_cons_self _ _
      have hne : p ≠ post.getLastD entry := by
        intro e
        cases post with
        | nil =>
          simp only [List.getLastD_nil] at e
          exact hdisj hp (Or.inl e)
        | cons q qs =>
          have := getLastD_mem (q :: qs) entry (by simp)
          rw [← e] at this
          exact hdisj hp (Or.inr this)
      have : (h.next head == h.prev head) = false := by
        rw [e1, e2]
        exact beq_eq_false_iff_ne.mpr hne
      simp only [list_is_singular, this, Bool.and_false, Bool.false_and]
  have hne : ¬ entry = head := fun e => hhe e.symm
  unfold list_cut_position
  rw [hemp, hsing, if_neg hne]
  simp only [Bool.false_eq_true, if_false]

/-- C19, `list_cut_position` moves the initial part of a list: on a well-formed
circular list `head` holding the entries `es`, and a list head `list` that is
not one of its nodes, cutting at an entry `entry` with `es = pre ++ entry ::
post` leaves `list` holding exactly `pre ++ [entry]` and `head` holding exactly
`post`, in their original order and with consistent `next`/`prev` links; with
`entry = head` on a non-empty list, `list` becomes empty and `head` still holds
`es`, no link of a node other than `list` being written; on an empty `head`
nothing changes. -/
theorem list_cut_position_spec (h : list_heap) (list head : Nat) (es : List Nat)
    (hl : is_list h head es) (hlist : list ∉ head :: es) :
    (∀ (pre post : List Nat) (entry : Nat), es = pre ++ entry :: post →
      is_list (list_cut_position h list head entry) list (pre ++ [entry]) ∧
      is_list (list_cut_position h list head entry) head post) ∧
    (es ≠ [] →
      is_list (list_cut_position h list head head) list [] ∧
      is_list (list_cut_position h list head head) head es ∧
      ∀ x, x ≠ list →
        (list_cut_position h list head head).next x = h.next x ∧
        (list_cut_position h list head head).prev x = h.prev x) ∧
    (es = [] → ∀ entry, list_cut_position h list head entry = h) := by
  refine ⟨?_, ?_, ?_⟩
  · intro pre post entry hes
    subst hes
    rw [list_cut_position_on_list h list head entry pre post hl]
    exact cut_is_list h list head entry pre post hl hlist
  · intro hne
    obtain ⟨hnd, hs⟩ := hl
    have hemp : list_empty h head = false := by
      simp only [list_empty, beq_eq_false_iff_ne, ne_eq]
      intro e
      cases es with
      | nil => exact hne rfl
      | cons e1 l =>
        have e2 : h.next head = e1 := hs.1
        rw [e2] at e
        exact (List.nodup_cons.mp hnd).1 (e ▸ List.mem_cons_self _ _)
    have hcut : list_cut_position h list head head = INIT_LIST_HEAD h list := by
      unfold list_cut_position
      rw [hemp]
      simp only [Bool.false_eq_true, if_false, bne_self_eq_false, Bool.and_false, if_true]
    rw [hcut]
    refine ⟨⟨List.nodup_singleton _, ?_, ?_⟩, ⟨hnd, ?_⟩, ?_⟩
    · rw [init_next, if_pos rfl]
    · rw [init_prev, if_pos rfl]
    · refine seg_congr h _ es head head ?_ ?_ hs
      · intro x hx
        rw [init_next, if_neg (ne_of_mem_of_not_mem hx hlist)]
      · intro x hx
        have hx1 : x ∈ head :: es := by
          rcases List.mem_append.mp hx with hx | hx
          · exact List.mem_cons_of_mem _ hx
          · rw [List.mem_singleton.mp hx]
            exact List.mem_cons_self _ _
        rw [init_prev, if_neg (ne_of_mem_of_not_mem hx1 hlist)]
    · intro x hx
      rw [init_next, init_prev, if_neg hx, if_neg hx]
      exact ⟨rfl, rfl⟩
  · intro hes entry
    subst hes
    have e1 : h.next head = head := hl.2.1
    unfold list_cut_position
    simp only [list_empty, e1, beq_self_eq_true, if_true]

/-- Witness of C19: cutting the list `0 → 1 → 2 → 3` at node `2` into the list
head `9`. -/
theorem list_cut_position_spec_witness :
    is_list example_heap 0 [1, 2, 3] ∧
    is_list (list_cut_position example_heap 9 0 2) 9 [1, 2] ∧
    is_list (list_cut_position example_heap 9 0 2) 0 [3] :=
  ⟨⟨by decide, rfl, rfl, rfl, rfl, rfl, rfl, rfl, rfl⟩,
    (list_cut_position_spec example_heap 9 0 [1, 2, 3]
      ⟨by decide, rfl, rfl, rfl, rfl, rfl, rfl, rfl, rfl⟩ (by decide)).1 [1] [3] 2 rfl⟩

/-! ## The state after a refused `do_mmap` -/

/-- C21, the state left behind by a refused `do_mmap`: whenever `do_mmap`
returns `-LINUX_EINVAL`, the region directory is unchanged and no external call
(so no host allocation) was made; the cursor has been raised by
`roundup len 4096` (in 64-bit arithmetic, that is modulo `2^64`) when `FIXED`
is not set, `PRIVATE` is set and `ANON` is not set, and is unchanged on every
other such return.  Every request with a page-aligned `addr`, `FIXED` not set,
`PRIVATE` set, `ANON` not set and only recognized or advisory flag bits does
return `-LINUX_EINVAL`, in the state whose cursor is raised by
`roundup len 4096`. -/
theorem refused_mmap_state (m : mm) (host : Option (Nat × Nat)) (addr len : Nat)
    (n_prot l_prot : Int) (l_flags : Nat) (fd offset : Int) :
    (∀ res : Int × mm × List Event,
      do_mmap m host addr len n_prot l_prot l_flags fd offset = .ok res →
      res.1 = -LINUX_EINVAL →
        res.2.1.mm_regions = m.mm_regions ∧ res.2.2 = [] ∧
        res.2.1.current_mmap_top =
          if addr % 4096 = 0 ∧ l_flags &&& LINUX_MAP_FIXED = 0 ∧
              l_flags &&& LINUX_MAP_PRIVATE ≠ 0 ∧ l_flags &&& LINUX_MAP_ANON = 0 ∧
              and_not l_flags (ADVISORY_MASK ||| RECOGNIZED_MASK) = 0
          then (m.current_mmap_top + roundup len PAGE_SIZE_4KB) % 2 ^ 64
          else m.current_mmap_top) ∧
    (addr % 4096 = 0 → l_flags &&& LINUX_MAP_FIXED = 0 →
      l_flags &&& LINUX_MAP_PRIVATE ≠ 0 → l_flags &&& LINUX_MAP_ANON = 0 →
      and_not l_flags (ADVISORY_MASK ||| RECOGNIZED_MASK) = 0 →
      do_mmap m host addr len n_prot l_prot l_flags fd offset =
        .ok (-LINUX_EINVAL,
          { m with
            current_mmap_top := (m.current_mmap_top + roundup len PAGE_SIZE_4KB) % 2 ^ 64 },
          [])) := by
  constructor
  · intro res h hres
    rw [do_mmap_eq] at h
    by_cases h1 : addr % 4096 ≠ 0
    · rw [if_pos h1] at h; cases h
    rw [if_neg h1] at h
    by_cases h2 : l_flags &&& LINUX_MAP_PRIVATE = 0 ∧ l_flags &&& LINUX_MAP_ANON = 0
    · rw [if_pos h2] at h
      cases h
      refine ⟨rfl, rfl, ?_⟩
      rw [if_neg (fun hc => hc.2.2.1 h2.1)]
    rw [if_neg h2] at h
    by_cases h3 : and_not l_flags (ADVISORY_MASK ||| RECOGNIZED_MASK) ≠ 0
    · rw [if_pos h3] at h; cases h
    rw [if_neg h3] at h
    by_cases h4 : l_flags &&& LINUX_MAP_ANON = 0
    · rw [if_pos h4] at h
      cases h
      have hp : l_flags &&& LINUX_MAP_PRIVATE ≠ 0 := fun hc => h2 ⟨hc, h4⟩
      by_cases hf : l_flags &&& LINUX_MAP_FIXED = 0
      · rw [if_pos hf, alloc_region_snd, roundup_roundup,
          if_pos ⟨not_not.mp h1, hf, hp, h4, not_not.mp h3⟩]
        exact ⟨rfl, rfl, rfl⟩
      · rw [if_neg hf, if_neg (fun hc => hf hc.2.1)]
        exact ⟨rfl, rfl, rfl⟩
    rw [if_neg h4] at h
    exfalso
    have hneg : ∀ a : Nat, (a : Int) ≠ -LINUX_EINVAL := by
      intro a
      unfold LINUX_EINVAL
      omega
    cases host with
    | none => cases h
    | some ph =>
      obtain ⟨ptr, handle⟩ := ph
      simp only at h
      split at h
      · cases h
      · split at h
        · cases h
        · cases h
          exact hneg _ hres
  · intro haddr hf hp ha hrec
    rw [do_mmap_eq, if_neg (not_not.mpr haddr), if_neg (fun hc => hp hc.1),
      if_neg (not_not.mpr hrec), if_pos ha, if_pos hf, alloc_region_snd, roundup_roundup]

/-- Witness of C21: a private file mapping request of 8192 bytes without `FIXED`
on the initial state is refused and leaves the cursor at `0xc0002000`. -/
theorem refused_mmap_state_witness :
    do_mmap initial_state (some (0xb00000, 7)) 0 8192 3 3 LINUX_MAP_PRIVATE 4 0 =
      .ok (-LINUX_EINVAL,
        { initial_state with
          current_mmap_top :=
            (initial_state.current_mmap_top + roundup 8192 PAGE_SIZE_4KB) % 2 ^ 64 }, []) ∧
    (initial_state.current_mmap_top + roundup 8192 PAGE_SIZE_4KB) % 2 ^ 64 = 0xc0002000 :=
  ⟨(refused_mmap_state initial_state (some (0xb00000, 7)) 0 8192 3 3 LINUX_MAP_PRIVATE 4 0).2
    (by decide) (by decide) (by decide) (by decide) (by decide), by decide⟩

end Noah
